import Mathlib

/-!
# cpu3bit: a 3-bit CPU assembled from NAND gates and clocked cells

Shallow embedding of `cpu3bit/computer.go` and of the helpers of
`cpu3bit/cmd/cpu3bit/main.go`.

A wire carries one of two levels.  The units of `computer.go` are embedded
signal by signal: every Go statement that instantiates a gate becomes a `let`
that computes the level of the gate's output line, and every clocked cell
(`DFF`, `DFFC`) becomes a pair of fields in a net record: the level of the
line that feeds the cell and the level the cell retains.

The gate library `github.com/inazak/nandgate` (imported with a dot import by
`computer.go`) is a package of its own; the section `nandgate` models its
gates and cells from the specification, and `Update` and `Tick` are modelled
per net.  The model is replayed on the table of `TestCounter3` of
`computer_test.go` (`TestCounter3_passes`).
-/

namespace nandgate

/-- A wire level: every wire holds exactly one of two boolean levels. -/
abbrev Level := Bool

/-- The high level. -/
abbrev HI : Level := true

/-- The low level. -/
abbrev LO : Level := false

/-- Modelled from the spec: the universal primitive of the absent gate library,
a pure relation from two input levels to one output level. -/
def Nand (a b : Level) : Level := !(a && b)

/-- Modelled from the spec: negation, a fixed small network of `Nand`. -/
def Not (a : Level) : Level := Nand a a

/-- Modelled from the spec: conjunction, a fixed small network of `Nand`. -/
def And (a b : Level) : Level := Nand (Nand a b) (Nand a b)

/-- Modelled from the spec: disjunction, a fixed small network of `Nand`. -/
def Or (a b : Level) : Level := Nand (Nand a a) (Nand b b)

/-- Modelled from the spec: exclusive-or, a fixed small network of `Nand`. -/
def Xor (a b : Level) : Level := Nand (Nand a (Nand a b)) (Nand b (Nand a b))

/-- Modelled from the spec: the 3-input conjunction of the absent gate library,
a conjunction over its operand list. -/
def And3 (a b c : Level) : Level := And (And a b) c

/-- Modelled from the spec: the 4-input disjunction of the absent gate library,
a disjunction over its operand list. -/
def Or4 (a b c d : Level) : Level := Or (Or a b) (Or c d)

/-- Modelled from the spec: the 2-way selector of the absent gate library; it
outputs one of two 1-bit operands chosen by a control line, low selecting the
first operand. -/
def Mux (a b sel : Level) : Level := Or (And a (Not sel)) (And b sel)

/-- Modelled from the spec: the full adder of the absent gate library; sum bit
and carry-out bit of two data bits and a carry-in bit, by the standard
full-adder truth table. -/
def FAdd (a b cin : Level) : Level × Level :=
  (Xor (Xor a b) cin, Or (And a b) (And (Xor a b) cin))

/-- Modelled from the spec: the 3-bit one-hot decoder of the absent gate
library; it maps a 3-bit address (first argument least significant) to 8
mutually exclusive select lines, line `k` asserted exactly at address `k`. -/
def BDec3 (a0 a1 a2 : Level) :
    Level × Level × Level × Level × Level × Level × Level × Level :=
  ( And3 (Not a0) (Not a1) (Not a2),
    And3 a0 (Not a1) (Not a2),
    And3 (Not a0) a1 (Not a2),
    And3 a0 a1 (Not a2),
    And3 (Not a0) (Not a1) a2,
    And3 a0 (Not a1) a2,
    And3 (Not a0) a1 a2,
    And3 a0 a1 a2 )

/-- Modelled from the spec: the plain storage cell of the absent gate library;
the level it retains after an edge advance is the level of its data input. -/
def DFF (d : Level) : Level := d

/-- Modelled from the spec: the clearable storage cell of the absent gate
library; on an edge advance an asserted clear forces the retained level low,
overriding the data input. -/
def DFFC (d clear : Level) : Level := if clear = HI then LO else d

end nandgate

namespace cpu3bit

open nandgate (Level HI LO)

/-- A group of three lines, bit 0 first. -/
abbrev Lines3 := Level × Level × Level

/-- A group of four lines, bit 0 first. -/
abbrev Lines4 := Level × Level × Level × Level

/-- A group of seven lines, bit 0 first. -/
abbrev Lines7 := Level × Level × Level × Level × Level × Level × Level

/-- The number a level stands for: 1 when high, 0 when low. -/
def bit (l : Level) : Nat := if l = HI then 1 else 0

/-- The number carried by three lines, bit 0 least significant. -/
def val3 (x : Lines3) : Nat := bit x.1 + 2 * bit x.2.1 + 4 * bit x.2.2

/-- The number carried by four lines, bit 0 least significant. -/
def val4 (x : Lines4) : Nat :=
  bit x.1 + 2 * bit x.2.1 + 4 * bit x.2.2.1 + 8 * bit x.2.2.2

/-- ALU of `computer.go`: bypass (`s = a`) when `mode` is low, addition
(`s = a + b`) when it is high.  The line `c0` comes from `MakeLine` and is
driven by nothing, so it keeps the low level of a fresh line. -/
def ALU (a b : Lines4) (mode : Level) : Lines4 × Level :=
  let c0 := LO
  let (s0, c1) := nandgate.FAdd a.1 (nandgate.And b.1 mode) c0
  let (s1, c2) := nandgate.FAdd a.2.1 (nandgate.And b.2.1 mode) c1
  let (s2, c3) := nandgate.FAdd a.2.2.1 (nandgate.And b.2.2.1 mode) c2
  let (s3, c) := nandgate.FAdd a.2.2.2 (nandgate.And b.2.2.2 mode) c3
  ((s0, s1, s2, s3), c)

/-- Selecter of `computer.go`: when `sel` is low the output is `a`, when it is
high the output is `b`. -/
def Selecter (a b : Lines4) (sel : Level) : Lines4 :=
  let q0 := nandgate.Mux a.1 b.1 sel
  let q1 := nandgate.Mux a.2.1 b.2.1 sel
  let q2 := nandgate.Mux a.2.2.1 b.2.2.1 sel
  let q3 := nandgate.Mux a.2.2.2 b.2.2.2 sel
  (q0, q1, q2, q3)

/-- The five control lines the decoder drives. -/
structure Control where
  lda : Level
  ldb : Level
  ldpc : Level
  mode : Level
  sel : Level
deriving DecidableEq, Repr

/-- Decoder of `computer.go`: three opcode lines and the carry flag in, five
control lines out. -/
def Decoder (i0 i1 i2 cin : Level) : Control :=
  { lda := nandgate.And (nandgate.Not i2) i1
    ldb := nandgate.And i2 (nandgate.Not i1)
    ldpc := nandgate.Or (nandgate.And3 i2 i1 (nandgate.Not cin)) (nandgate.And3 i2 i1 i0)
    mode := nandgate.Or (nandgate.And3 (nandgate.Not i2) i1 (nandgate.Not i0))
      (nandgate.And3 i2 (nandgate.Not i1) (nandgate.Not i0))
    sel := nandgate.And i2 (nandgate.Not i1) }

/-- The level of the line `memory[k][i]`.  Reading outside a slice ends the Go
program, which is the result `none` here. -/
def memoryLine (memory : List (List Level)) (k i : Nat) : Option Level := do
  let m ← memory[k]?
  m[i]?

/-- One output line of the ROM of `computer.go`: the body of the loop over
`i`. -/
def ROMline (memory : List (List Level))
    (s : Level × Level × Level × Level × Level × Level × Level × Level) (i : Nat) :
    Option Level := do
  let m0 ← memoryLine memory 0 i
  let m1 ← memoryLine memory 1 i
  let m2 ← memoryLine memory 2 i
  let m3 ← memoryLine memory 3 i
  let m4 ← memoryLine memory 4 i
  let m5 ← memoryLine memory 5 i
  let m6 ← memoryLine memory 6 i
  let m7 ← memoryLine memory 7 i
  pure (nandgate.Or
    (nandgate.Or4 (nandgate.And s.1 m0) (nandgate.And s.2.1 m1)
      (nandgate.And s.2.2.1 m2) (nandgate.And s.2.2.2.1 m3))
    (nandgate.Or4 (nandgate.And s.2.2.2.2.1 m4) (nandgate.And s.2.2.2.2.2.1 m5)
      (nandgate.And s.2.2.2.2.2.2.1 m6) (nandgate.And s.2.2.2.2.2.2.2 m7)))

/-- ROM of `computer.go`: the record of `memory` that the 3-bit input selects.
The loop over the seven output lines is unrolled. -/
def ROM (memory : List (List Level)) (inp : Lines3) : Option Lines7 := do
  let s := nandgate.BDec3 inp.1 inp.2.1 inp.2.2
  let o0 ← ROMline memory s 0
  let o1 ← ROMline memory s 1
  let o2 ← ROMline memory s 2
  let o3 ← ROMline memory s 3
  let o4 ← ROMline memory s 4
  let o5 ← ROMline memory s 5
  let o6 ← ROMline memory s 6
  pure (o0, o1, o2, o3, o4, o5, o6)

/-- The seven lines of a group as a list, bit 0 first. -/
def Lines7.toList (x : Lines7) : List Level :=
  [x.1, x.2.1, x.2.2.1, x.2.2.2.1, x.2.2.2.2.1, x.2.2.2.2.2.1, x.2.2.2.2.2.2]

/-- Counter3 of `computer.go`, the combinational part: from the data lines
`d`, the `load` line and the outputs `q` of the three cells, the levels of
`in0`, `in1`, `in2`, which `Connect` ties to the lines `r0`, `r1`, `r2` that
feed the cells. -/
def Counter3 (d : Lines3) (load : Level) (q : Lines3) : Lines3 :=
  let (q0, q1, q2) := q
  let fb0 := nandgate.Not q0
  let in0 := nandgate.Mux fb0 d.1 load
  let fb1 := nandgate.Xor q0 q1
  let in1 := nandgate.Mux fb1 d.2.1 load
  let a1 := nandgate.And q1 (nandgate.Xor q0 q2)
  let a2 := nandgate.And q2 (nandgate.Not q1)
  let fb2 := nandgate.Or a1 a2
  let in2 := nandgate.Mux fb2 d.2.2 load
  (in0, in1, in2)

/-- Register4 of `computer.go`, the combinational part: from the data lines
`d`, the `load` line and the outputs `q` of the four cells, the levels of
`i0` .. `i3`, which `Connect` ties to the lines `r0` .. `r3` that feed the
cells. -/
def Register4 (d : Lines4) (load : Level) (q : Lines4) : Lines4 :=
  let (q0, q1, q2, q3) := q
  let i0 := nandgate.Mux q0 d.1 load
  let i1 := nandgate.Mux q1 d.2.1 load
  let i2 := nandgate.Mux q2 d.2.2.1 load
  let i3 := nandgate.Mux q3 d.2.2.2 load
  (i0, i1, i2, i3)

/-- The lines of a `Counter3` under test: the data, load and clear lines the
caller drives, the lines `r` that feed the three `DFFC` cells, and the
outputs `q` of the cells. -/
structure Counter3Net where
  d : Lines3
  load : Level
  clear : Level
  r : Lines3
  q : Lines3
deriving DecidableEq, Repr

/-- Modelled from the spec: `Update` of the absent gate library on a
`Counter3`; settlement re-evaluates the gates until no level changes, which
leaves on the lines that feed the cells the levels their gates compute from
the driven lines and the cell outputs.  Cells keep their retained level. -/
def Counter3Net.Update (n : Counter3Net) : Counter3Net :=
  { n with r := Counter3 n.d n.load n.q }

/-- Modelled from the spec: `Tick` of the absent gate library on a `Counter3`;
every cell takes its next level from its data and clear lines as they stand,
all cells at once, and then the network is settled again. -/
def Counter3Net.Tick (n : Counter3Net) : Counter3Net :=
  Counter3Net.Update { n with q := (nandgate.DFFC n.r.1 n.clear,
    nandgate.DFFC n.r.2.1 n.clear, nandgate.DFFC n.r.2.2 n.clear) }

/-- A `Counter3` is settled when `Update` changes no level. -/
def Counter3Net.Settled (n : Counter3Net) : Prop := n.Update = n

instance (n : Counter3Net) : Decidable n.Settled := by
  unfold Counter3Net.Settled; infer_instance

/-- The lines of a `Register4` under test: the data, load and clear lines the
caller drives, the lines `r` that feed the four `DFFC` cells, and the outputs
`q` of the cells. -/
structure Register4Net where
  d : Lines4
  load : Level
  clear : Level
  r : Lines4
  q : Lines4
deriving DecidableEq, Repr

/-- Modelled from the spec: `Update` of the absent gate library on a
`Register4`, as for `Counter3Net.Update`. -/
def Register4Net.Update (n : Register4Net) : Register4Net :=
  { n with r := Register4 n.d n.load n.q }

/-- Modelled from the spec: `Tick` of the absent gate library on a
`Register4`, as for `Counter3Net.Tick`. -/
def Register4Net.Tick (n : Register4Net) : Register4Net :=
  Register4Net.Update { n with q := (nandgate.DFFC n.r.1 n.clear,
    nandgate.DFFC n.r.2.1 n.clear, nandgate.DFFC n.r.2.2.1 n.clear,
    nandgate.DFFC n.r.2.2.2 n.clear) }

/-- A `Register4` is settled when `Update` changes no level. -/
def Register4Net.Settled (n : Register4Net) : Prop := n.Update = n

instance (n : Register4Net) : Decidable n.Settled := by
  unfold Register4Net.Settled; infer_instance

/-- CFlag of `computer.go`, the combinational part: `Connect` ties the data
line `d` to the line `r` that feeds the plain `DFF` cell, so `r` settles at
the level of `d`. -/
def CFlag (d : Level) : Level := d

/-- The `State` field of a line that carries level `l`: the Go constants `HI`
and `LO` are the integers 1 and 0 (`ToString` prints them as "1" and "0"). -/
def State (l : Level) : Int := if l = HI then 1 else 0

/-- Modelled from the spec: the level a gate reads from a line whose `State`
was set to an integer by `MakeComputer`; the line is high when the integer is
`HI`. -/
def levelOf (state : Int) : Level := decide (state = 1)

/-- lineToInt of `computer.go`: the `State` of each line, in order.  A line is
given by its `State`. -/
def lineToInt (lines : List Int) : List Int :=
  lines.foldl (fun s line => s ++ [line]) []

/-- The circuit `MakeComputer` builds, with the levels it holds.  `memory` is
the `State` of every memory line; `clear` is the reset line; `RAr`, `RBr`,
`PCr`, `Cr` are the lines that feed the cells of register A, register B, the
program counter and the carry flag; `RAq`, `RBq`, `PCq`, `Cq` are the outputs
of those cells, which the Go `CPUInfo` exposes as `registerA`, `registerB`,
`programCounter` and `carryFlag`. -/
structure CPUInfo where
  memory : List (List Int)
  clear : Level
  RAr : Lines4
  RAq : Lines4
  RBr : Lines4
  RBq : Lines4
  PCr : Lines3
  PCq : Lines3
  Cr : Level
  Cq : Level
deriving DecidableEq, Repr

/-- Memory of `computer.go`. -/
def CPUInfo.Memory (c : CPUInfo) : List (List Int) :=
  c.memory.foldl (fun r m => r ++ [lineToInt m]) []

/-- RegisterA of `computer.go`. -/
def CPUInfo.RegisterA (c : CPUInfo) : List Int :=
  lineToInt [State c.RAq.1, State c.RAq.2.1, State c.RAq.2.2.1, State c.RAq.2.2.2]

/-- RegisterB of `computer.go`. -/
def CPUInfo.RegisterB (c : CPUInfo) : List Int :=
  lineToInt [State c.RBq.1, State c.RBq.2.1, State c.RBq.2.2.1, State c.RBq.2.2.2]

/-- ProgramCounter of `computer.go`. -/
def CPUInfo.ProgramCounter (c : CPUInfo) : List Int :=
  lineToInt [State c.PCq.1, State c.PCq.2.1, State c.PCq.2.2]

/-- CarryFlag of `computer.go`. -/
def CPUInfo.CarryFlag (c : CPUInfo) : List Int :=
  lineToInt [State c.Cq]

/-- The levels of the memory lines, as the gates of the ROM read them. -/
def CPUInfo.levels (c : CPUInfo) : List (List Level) :=
  c.memory.map (fun m => m.map levelOf)

/-- The wiring of `MakeComputer` behind the ROM: from the levels `ROMout` of
the seven ROM output lines and the outputs of the cells, the levels on the
lines that feed the cells.  The high three ROM lines and the carry flag go to
the decoder, the selecter picks a register, the ALU adds or bypasses the low
four ROM lines, and `Connect` ties the ALU result to the data lines of both
registers and of the program counter, the ALU carry to the carry flag, and the
decoder's load lines to the load lines of the registers and the counter. -/
def CPUInfo.wiring (c : CPUInfo) (ROMout : Lines7) : CPUInfo :=
  let (o0, o1, o2, o3, o4, o5, o6) := ROMout
  let dec := Decoder o4 o5 o6 c.Cq
  let SELout := Selecter c.RAq c.RBq dec.sel
  let (ALUout, Carry) := ALU (o0, o1, o2, o3) SELout dec.mode
  { c with
    RAr := Register4 ALUout dec.lda c.RAq
    RBr := Register4 ALUout dec.ldb c.RBq
    PCr := Counter3 (ALUout.1, ALUout.2.1, ALUout.2.2.1) dec.ldpc c.PCq
    Cr := CFlag Carry }

/-- Modelled from the spec: `Update` of the absent gate library on the circuit
of `MakeComputer`; settlement leaves on every line the level its gate computes
from the outputs of the cells: the program counter addresses the ROM, and the
ROM output drives the rest of the wiring. -/
def CPUInfo.Update (c : CPUInfo) : Option CPUInfo := do
  let ROMout ← ROM c.levels c.PCq
  pure (c.wiring ROMout)

/-- Modelled from the spec: `Tick` of the absent gate library on the circuit
of `MakeComputer`; every cell takes its next level from its data and clear
lines as they stand, all cells at once, and then the network is settled. -/
def CPUInfo.Tick (c : CPUInfo) : Option CPUInfo :=
  CPUInfo.Update { c with
    RAq := (nandgate.DFFC c.RAr.1 c.clear, nandgate.DFFC c.RAr.2.1 c.clear,
      nandgate.DFFC c.RAr.2.2.1 c.clear, nandgate.DFFC c.RAr.2.2.2 c.clear)
    RBq := (nandgate.DFFC c.RBr.1 c.clear, nandgate.DFFC c.RBr.2.1 c.clear,
      nandgate.DFFC c.RBr.2.2.1 c.clear, nandgate.DFFC c.RBr.2.2.2 c.clear)
    PCq := (nandgate.DFFC c.PCr.1 c.clear, nandgate.DFFC c.PCr.2.1 c.clear,
      nandgate.DFFC c.PCr.2.2 c.clear)
    Cq := nandgate.DFF c.Cr }

/-- TickTock of `computer.go`: one `Tick` of the gate library. -/
def TickTock (c : CPUInfo) : Option CPUInfo := c.Tick

/-- MakeComputer of `computer.go`.  Every memory line takes its `State` from
the image; every other line is fresh and every cell is in the low state that
`Init` gives.  Wiring the ROM reads `memory[0..7][0..6]`; an image too short
for that ends the Go program, which is the result `none` here. -/
def MakeComputer (image : List (List Int)) : Option CPUInfo := do
  let memory := image.map (fun w => w.map (fun x => x))
  let _ ← ROM (memory.map (fun m => m.map levelOf)) (LO, LO, LO)
  pure { memory := memory, clear := LO,
         RAr := (LO, LO, LO, LO), RAq := (LO, LO, LO, LO),
         RBr := (LO, LO, LO, LO), RBq := (LO, LO, LO, LO),
         PCr := (LO, LO, LO), PCq := (LO, LO, LO),
         Cr := LO, Cq := LO }

/-- The circuit is settled when `Update` changes no level. -/
def CPUInfo.Settled (c : CPUInfo) : Prop := c.Update = some c

instance (c : CPUInfo) : Decidable c.Settled := by
  unfold CPUInfo.Settled; infer_instance

/-- An image of 8 words of 7 bits: 8 words, each of 7 elements, each element 0
or 1. -/
def Image8x7 (image : List (List Int)) : Prop :=
  image.length = 8 ∧ ∀ w ∈ image, w.length = 7 ∧ ∀ x ∈ w, x = 0 ∨ x = 1

instance (image : List (List Int)) : Decidable (Image8x7 image) := by
  unfold Image8x7; infer_instance

/-- The state `c` is a state of the circuit that `MakeComputer` builds from
`image`: same memory lines and same reset line, any levels on the lines the
gates drive and in the cells. -/
def BuiltFrom (image : List (List Int)) (c : CPUInfo) : Prop :=
  ∃ c0, MakeComputer image = some c0 ∧ c.memory = c0.memory ∧ c.clear = c0.clear

/-- The `State` of each of seven lines, bit 0 first. -/
def Lines7.states (x : Lines7) : List Int := x.toList.map State

/-- The one of eight that three address lines select, bit 0 of the address
first. -/
def pick {α : Type} (a : Lines3) (w0 w1 w2 w3 w4 w5 w6 w7 : α) : α :=
  match a with
  | (false, false, false) => w0
  | (true, false, false) => w1
  | (false, true, false) => w2
  | (true, true, false) => w3
  | (false, false, true) => w4
  | (true, false, true) => w5
  | (false, true, true) => w6
  | (true, true, true) => w7

/-- The sample image of `main.go`. -/
def memoryimage : List (List Int) :=
  [ [0,0,0,0,1,0,1],
    [1,0,1,1,1,1,0],
    [1,1,0,0,0,0,1],
    [1,0,0,0,0,1,0],
    [0,1,0,0,0,1,1],
    [1,0,1,0,1,1,1],
    [0,0,0,0,0,0,0],
    [0,0,0,0,0,0,0] ]

/-- The sample circuit about to run word 3 (`add a,1`): A = 13, B = 3,
PC = 3, carry low, every line settled. -/
def sampleAtAddA : CPUInfo :=
  { memory := memoryimage, clear := LO,
    RAr := (LO, HI, HI, HI), RAq := (HI, LO, HI, HI),
    RBr := (HI, HI, LO, LO), RBq := (HI, HI, LO, LO),
    PCr := (LO, LO, HI), PCq := (HI, HI, LO),
    Cr := LO, Cq := LO }

/-- The sample circuit about to run word 2 (`add b,3`): A = 13, B = 0,
PC = 2, carry low, every line settled. -/
def sampleAtAddB : CPUInfo :=
  { memory := memoryimage, clear := LO,
    RAr := (HI, LO, HI, HI), RAq := (HI, LO, HI, HI),
    RBr := (HI, HI, LO, LO), RBq := (LO, LO, LO, LO),
    PCr := (HI, HI, LO), PCq := (LO, HI, LO),
    Cr := LO, Cq := LO }

/-- The table `ps` of `TestCounter3` in `computer_test.go`: the levels put on
`d`, `load` and `clear` at each step and the output the test expects after
`Tick` and `Update`. -/
def TestCounter3.ps : List (Lines3 × Level × Level × Lines3) :=
  [ ((LO, LO, LO), LO, LO, (LO, LO, LO)),
    ((LO, LO, LO), LO, LO, (HI, LO, LO)),
    ((LO, LO, LO), LO, LO, (LO, HI, LO)),
    ((LO, LO, LO), LO, LO, (HI, HI, LO)),
    ((HI, HI, HI), LO, LO, (LO, LO, HI)),
    ((HI, HI, HI), LO, LO, (HI, LO, HI)),
    ((LO, LO, LO), LO, LO, (LO, HI, HI)),
    ((LO, LO, LO), LO, LO, (HI, HI, HI)),
    ((LO, LO, LO), LO, LO, (LO, LO, LO)),
    ((LO, LO, LO), LO, LO, (HI, LO, LO)),
    ((LO, LO, LO), LO, HI, (LO, LO, LO)),
    ((LO, HI, LO), LO, HI, (LO, LO, LO)),
    ((LO, LO, LO), LO, LO, (HI, LO, LO)),
    ((LO, LO, LO), LO, LO, (LO, HI, LO)),
    ((HI, HI, HI), HI, LO, (HI, HI, LO)),
    ((LO, LO, LO), LO, LO, (HI, HI, HI)),
    ((LO, LO, LO), LO, LO, (LO, LO, LO)) ]

/-- The loop of `TestCounter3`: at each step the levels of the row are put on
`d`, `load` and `clear`, then `Tick`, then `Update`; the result tells for each
row whether the output is the expected one. -/
def TestCounter3.loop : Counter3Net → List (Lines3 × Level × Level × Lines3) → List Bool
  | _, [] => []
  | n, (d, load, clear, expected) :: rest =>
    let n1 := Counter3Net.Update (Counter3Net.Tick { n with d := d, load := load, clear := clear })
    decide (n1.q = expected) :: TestCounter3.loop n1 rest

/-- The net of `TestCounter3` right after `Init` and `Counter3`: every line
and every cell low. -/
def TestCounter3.init : Counter3Net :=
  { d := (LO, LO, LO), load := LO, clear := LO, r := (LO, LO, LO), q := (LO, LO, LO) }

/-- Repeated TickTock: what the timer loop or the `t` key of `main.go` does to
the circuit, `n` times over. -/
def TickTocks : Nat → CPUInfo → Option CPUInfo
  | 0, c => some c
  | n + 1, c => (TickTock c).bind (TickTocks n)

/-- The start of `main.go` followed by `n` calls of `TickTock`:
`Initialize`, `MakeComputer(image)`, then the ticks. -/
def run (image : List (List Int)) (n : Nat) : Option CPUInfo :=
  (MakeComputer image).bind (TickTocks n)

/-- The loop of `convert` in `main.go` over the runes still to read, with the
`result` built so far. -/
def convertLoop : List Char → List Int → List Int
  | [], result => result
  | r :: rest, result =>
    if r = '#' then result
    else if r = '0' then convertLoop rest (result ++ [0])
    else if r = '1' then convertLoop rest (result ++ [1])
    else convertLoop rest result

/-- Function convert of `main.go`: the 0s and 1s of a line of text up to the
first `#`, every other character skipped. -/
def convert (s : String) : List Int := convertLoop s.toList []

/-- Function loadMemoryImageText of `main.go`, on the lines the scanner reads
from the file: every line that converts to a non-empty word is reversed and
appended to the image.  The Go function returns an error only when the file
cannot be opened or read. -/
def loadMemoryImageText (lines : List String) : List (List Int) :=
  lines.foldl (fun image line =>
    let a := convert line
    if a.length ≠ 0 then image ++ [a.reverse] else image) []

/-- One step of the loop of `TestCounter3`: the levels are put on `d`, `load`
and `clear`, then `Tick`, then `Update`. -/
def TestCounter3.step (n : Counter3Net) (d : Lines3) (load clear : Level) : Counter3Net :=
  Counter3Net.Update (Counter3Net.Tick { n with d := d, load := load, clear := clear })

/-- The sample circuit about to run word 0 (`mov b,0`), settled. -/
def sampleAtMovB : CPUInfo :=
  { memory := memoryimage, clear := LO,
    RAr := (LO, LO, LO, LO), RAq := (LO, LO, LO, LO),
    RBr := (LO, LO, LO, LO), RBq := (LO, LO, LO, LO),
    PCr := (HI, LO, LO), PCq := (LO, LO, LO),
    Cr := LO, Cq := LO }

/-- The sample circuit about to run word 1 (`mov a,13`), settled. -/
def sampleAtMovA : CPUInfo :=
  { memory := memoryimage, clear := LO,
    RAr := (HI, LO, HI, HI), RAq := (LO, LO, LO, LO),
    RBr := (LO, LO, LO, LO), RBq := (LO, LO, LO, LO),
    PCr := (LO, HI, LO), PCq := (HI, LO, LO),
    Cr := LO, Cq := LO }

/-- The sample circuit about to run word 4 (`jnc 2`) with the carry flag low:
A = 14, B = 3, settled. -/
def sampleAtJncLow : CPUInfo :=
  { memory := memoryimage, clear := LO,
    RAr := (LO, HI, HI, HI), RAq := (LO, HI, HI, HI),
    RBr := (HI, HI, LO, LO), RBq := (HI, HI, LO, LO),
    PCr := (LO, HI, LO), PCq := (LO, LO, HI),
    Cr := LO, Cq := LO }

/-- The sample circuit about to run word 4 (`jnc 2`) with the carry flag high:
A = 0, B = 9, settled. -/
def sampleAtJncHigh : CPUInfo :=
  { memory := memoryimage, clear := LO,
    RAr := (LO, LO, LO, LO), RAq := (LO, LO, LO, LO),
    RBr := (HI, LO, LO, HI), RBq := (HI, LO, LO, HI),
    PCr := (HI, LO, HI), PCq := (LO, LO, HI),
    Cr := LO, Cq := HI }

/-- The sample circuit at word 5 (`jmp 5`): A = 0, B = 9, carry low, settled. -/
def sampleAtJmp : CPUInfo :=
  { memory := memoryimage, clear := LO,
    RAr := (LO, LO, LO, LO), RAq := (LO, LO, LO, LO),
    RBr := (HI, LO, LO, HI), RBq := (HI, LO, LO, HI),
    PCr := (HI, LO, HI), PCq := (HI, LO, HI),
    Cr := LO, Cq := LO }

/-- The sample circuit put at word 6 (all zero, a no-op) with A = 5, B = 6 and
the carry flag high, settled. -/
def sampleAtNop : CPUInfo :=
  { memory := memoryimage, clear := LO,
    RAr := (HI, LO, HI, LO), RAq := (HI, LO, HI, LO),
    RBr := (LO, HI, HI, LO), RBq := (LO, HI, HI, LO),
    PCr := (HI, HI, HI), PCq := (LO, HI, HI),
    Cr := LO, Cq := HI }

/-- The sample image with a ninth bit appended to word 0. -/
def imageWide : List (List Int) :=
  [0,0,0,0,1,0,1,1] :: memoryimage.tail

/-- The sample image with the element 2 in word 7. -/
def imageTwo : List (List Int) :=
  memoryimage.take 7 ++ [[0,0,2,0,0,0,0]]

/-- The first seven words of the sample image. -/
def imageShort : List (List Int) := memoryimage.take 7

/-- What the display of `main.go` shows after `n` calls of `TickTock` on the
circuit of `image`, as numbers: register A, register B, the program counter
and the carry flag. -/
def trace (image : List (List Int)) (n : Nat) : Option (Nat × Nat × Nat × Nat) :=
  (run image n).map (fun c => (val4 c.RAq, val4 c.RBq, val3 c.PCq, bit c.Cq))

/-- A text of eight lines for `loadMemoryImageText`: the sample program, most
significant bit first, with a stray `x`, blanks and an eighth bit in the
first line. -/
def textWide : List String :=
  [ "1101 0000 x",
    "0111101",
    "1000011",
    "0100001",
    "1100010",
    "1110101",
    "0000000",
    "0000000" ]

/-- ToString of `computer.go`: one character per element, `1` for `HI`, `0`
for `LO` and `-` for anything else; the Go constants `HI` and `LO` are the
integers 1 and 0, as for `State`. -/
def ToString (list : List Int) : String :=
  list.foldl (fun s i =>
    if i = 1 then s ++ "1"
    else if i = 0 then s ++ "0"
    else s ++ "-") ""

/-- ToRunes of `main.go`: the runes of the string, collected in order and then
reversed. -/
def ToRunes (s : String) : List Char :=
  (s.toList.foldl (fun runes r => runes ++ [r]) []).reverse

/-- A string made only of the characters `0` and `1`. -/
def Binary (s : String) : Prop := ∀ r ∈ s.toList, r = '0' ∨ r = '1'

instance (s : String) : Decidable (Binary s) := by
  unfold Binary; infer_instance

end cpu3bit

/-! ## Lemmas on the gates and the units -/

section Lemmas

open cpu3bit

theorem Counter3Net_settled_r (n : cpu3bit.Counter3Net) (hs : n.Settled) :
    n.r = cpu3bit.Counter3 n.d n.load n.q :=
  (congrArg cpu3bit.Counter3Net.r hs).symm

theorem Register4Net_settled_r (n : cpu3bit.Register4Net) (hs : n.Settled) :
    n.r = cpu3bit.Register4 n.d n.load n.q :=
  (congrArg cpu3bit.Register4Net.r hs).symm

theorem levelOf_State (l : nandgate.Level) : levelOf (State l) = l := by
  cases l <;> rfl

theorem State_of_bool (x : Int) (h : x = 0 ∨ x = 1) : x = State (levelOf x) := by
  rcases h with rfl | rfl <;> rfl

theorem State_injective (a b : nandgate.Level) (h : State a = State b) : a = b := by
  cases a <;> cases b <;> first | rfl | (exact absurd h (by decide))

theorem word_of_bits (w : List Int) (h : w.length = 7) (hb : ∀ x ∈ w, x = 0 ∨ x = 1) :
    ∃ l : Lines7, w = Lines7.states l := by
  match w, h with
  | [x0, x1, x2, x3, x4, x5, x6], _ =>
    refine ⟨(levelOf x0, levelOf x1, levelOf x2, levelOf x3, levelOf x4, levelOf x5,
      levelOf x6), ?_⟩
    simp only [Lines7.states, Lines7.toList, List.map_cons, List.map_nil]
    rw [← State_of_bool x0 (hb _ (by simp)), ← State_of_bool x1 (hb _ (by simp)),
      ← State_of_bool x2 (hb _ (by simp)), ← State_of_bool x3 (hb _ (by simp)),
      ← State_of_bool x4 (hb _ (by simp)), ← State_of_bool x5 (hb _ (by simp)),
      ← State_of_bool x6 (hb _ (by simp))]

theorem image_of_bits (image : List (List Int)) (h : Image8x7 image) :
    ∃ w0 w1 w2 w3 w4 w5 w6 w7 : Lines7, image =
      [Lines7.states w0, Lines7.states w1, Lines7.states w2, Lines7.states w3,
        Lines7.states w4, Lines7.states w5, Lines7.states w6, Lines7.states w7] := by
  obtain ⟨h8, h7⟩ := h
  match image, h8 with
  | [m0, m1, m2, m3, m4, m5, m6, m7], _ =>
    obtain ⟨w0, rfl⟩ := word_of_bits m0 (h7 _ (by simp)).1 (h7 _ (by simp)).2
    obtain ⟨w1, rfl⟩ := word_of_bits m1 (h7 _ (by simp)).1 (h7 _ (by simp)).2
    obtain ⟨w2, rfl⟩ := word_of_bits m2 (h7 _ (by simp)).1 (h7 _ (by simp)).2
    obtain ⟨w3, rfl⟩ := word_of_bits m3 (h7 _ (by simp)).1 (h7 _ (by simp)).2
    obtain ⟨w4, rfl⟩ := word_of_bits m4 (h7 _ (by simp)).1 (h7 _ (by simp)).2
    obtain ⟨w5, rfl⟩ := word_of_bits m5 (h7 _ (by simp)).1 (h7 _ (by simp)).2
    obtain ⟨w6, rfl⟩ := word_of_bits m6 (h7 _ (by simp)).1 (h7 _ (by simp)).2
    obtain ⟨w7, rfl⟩ := word_of_bits m7 (h7 _ (by simp)).1 (h7 _ (by simp)).2
    exact ⟨w0, w1, w2, w3, w4, w5, w6, w7, rfl⟩

theorem levels_states (w : Lines7) : (Lines7.states w).map levelOf = w.toList := by
  simp [Lines7.states, Lines7.toList, levelOf_State]

theorem states_injective (a b : Lines7) (h : Lines7.states a = Lines7.states b) : a = b := by
  obtain ⟨a0, a1, a2, a3, a4, a5, a6⟩ := a
  obtain ⟨b0, b1, b2, b3, b4, b5, b6⟩ := b
  simp only [Lines7.states, Lines7.toList, List.map_cons, List.map_nil, List.cons.injEq,
    and_true] at h
  obtain ⟨h0, h1, h2, h3, h4, h5, h6⟩ := h
  rw [State_injective _ _ h0, State_injective _ _ h1, State_injective _ _ h2,
    State_injective _ _ h3, State_injective _ _ h4, State_injective _ _ h5,
    State_injective _ _ h6]

theorem And_false_left (b : Bool) : nandgate.And false b = false := by cases b <;> rfl
theorem And_true_left (b : Bool) : nandgate.And true b = b := by cases b <;> rfl
theorem Or_false_left (b : Bool) : nandgate.Or false b = b := by cases b <;> rfl
theorem Or_false_right (b : Bool) : nandgate.Or b false = b := by cases b <;> rfl
theorem Or4_false_false (a b : Bool) : nandgate.Or4 false false a b = nandgate.Or a b := by
  cases a <;> cases b <;> rfl
theorem Or4_false_false_right (a b : Bool) : nandgate.Or4 a b false false = nandgate.Or a b := by
  cases a <;> cases b <;> rfl

theorem ROM_mux (a : Lines3) (m0 m1 m2 m3 m4 m5 m6 m7 : nandgate.Level) :
    nandgate.Or
      (nandgate.Or4 (nandgate.And (nandgate.BDec3 a.1 a.2.1 a.2.2).1 m0)
        (nandgate.And (nandgate.BDec3 a.1 a.2.1 a.2.2).2.1 m1)
        (nandgate.And (nandgate.BDec3 a.1 a.2.1 a.2.2).2.2.1 m2)
        (nandgate.And (nandgate.BDec3 a.1 a.2.1 a.2.2).2.2.2.1 m3))
      (nandgate.Or4 (nandgate.And (nandgate.BDec3 a.1 a.2.1 a.2.2).2.2.2.2.1 m4)
        (nandgate.And (nandgate.BDec3 a.1 a.2.1 a.2.2).2.2.2.2.2.1 m5)
        (nandgate.And (nandgate.BDec3 a.1 a.2.1 a.2.2).2.2.2.2.2.2.1 m6)
        (nandgate.And (nandgate.BDec3 a.1 a.2.1 a.2.2).2.2.2.2.2.2.2 m7)) =
    pick a m0 m1 m2 m3 m4 m5 m6 m7 := by
  obtain ⟨a0, a1, a2⟩ := a
  cases a0 <;> cases a1 <;> cases a2 <;>
    simp only [nandgate.BDec3, nandgate.And3, nandgate.Not, nandgate.Nand, Bool.and_self,
      Bool.not_true, Bool.not_false, And_false_left, And_true_left, Or_false_left,
      Or_false_right, Or4_false_false, Or4_false_false_right, pick, Bool.and_true,
      Bool.and_false, Bool.true_and, Bool.false_and]

theorem Lines7_of_length (w : List nandgate.Level) (h : w.length = 7) :
    ∃ x : Lines7, w = x.toList := by
  match w, h with
  | [x0, x1, x2, x3, x4, x5, x6], _ => exact ⟨(x0, x1, x2, x3, x4, x5, x6), rfl⟩

theorem memory_of_shape (memory : List (List nandgate.Level)) (h8 : memory.length = 8)
    (h7 : ∀ w ∈ memory, w.length = 7) :
    ∃ w0 w1 w2 w3 w4 w5 w6 w7 : Lines7, memory =
      [w0.toList, w1.toList, w2.toList, w3.toList, w4.toList, w5.toList, w6.toList,
        w7.toList] := by
  match memory, h8 with
  | [m0, m1, m2, m3, m4, m5, m6, m7], _ =>
    obtain ⟨w0, rfl⟩ := Lines7_of_length m0 (h7 _ (by simp))
    obtain ⟨w1, rfl⟩ := Lines7_of_length m1 (h7 _ (by simp))
    obtain ⟨w2, rfl⟩ := Lines7_of_length m2 (h7 _ (by simp))
    obtain ⟨w3, rfl⟩ := Lines7_of_length m3 (h7 _ (by simp))
    obtain ⟨w4, rfl⟩ := Lines7_of_length m4 (h7 _ (by simp))
    obtain ⟨w5, rfl⟩ := Lines7_of_length m5 (h7 _ (by simp))
    obtain ⟨w6, rfl⟩ := Lines7_of_length m6 (h7 _ (by simp))
    obtain ⟨w7, rfl⟩ := Lines7_of_length m7 (h7 _ (by simp))
    exact ⟨w0, w1, w2, w3, w4, w5, w6, w7, rfl⟩

theorem ROMline_words (w0 w1 w2 w3 w4 w5 w6 w7 : Lines7) (a : Lines3) (i : Nat) (hi : i < 7) :
    ROMline [w0.toList, w1.toList, w2.toList, w3.toList, w4.toList, w5.toList, w6.toList,
        w7.toList] (nandgate.BDec3 a.1 a.2.1 a.2.2) i =
      (pick a w0 w1 w2 w3 w4 w5 w6 w7).toList[i]? := by
  have hp : (pick a w0 w1 w2 w3 w4 w5 w6 w7).toList[i]? =
      some (pick a (w0.toList.getD i false) (w1.toList.getD i false) (w2.toList.getD i false)
        (w3.toList.getD i false) (w4.toList.getD i false) (w5.toList.getD i false)
        (w6.toList.getD i false) (w7.toList.getD i false)) := by
    obtain ⟨a0, a1, a2⟩ := a
    cases a0 <;> cases a1 <;> cases a2 <;> interval_cases i <;> rfl
  rw [hp, ← ROM_mux]
  interval_cases i <;> rfl

theorem ROM_words (w0 w1 w2 w3 w4 w5 w6 w7 : Lines7) (a : Lines3) :
    ROM [w0.toList, w1.toList, w2.toList, w3.toList, w4.toList, w5.toList, w6.toList,
        w7.toList] a = some (pick a w0 w1 w2 w3 w4 w5 w6 w7) := by
  unfold ROM
  simp only [ROMline_words, Nat.ofNat_pos, Nat.lt_add_one, Nat.one_lt_ofNat,
    show (2:Nat) < 7 by decide, show (3:Nat) < 7 by decide, show (4:Nat) < 7 by decide,
    show (5:Nat) < 7 by decide, show (6:Nat) < 7 by decide, show (1:Nat) < 7 by decide,
    show (0:Nat) < 7 by decide]
  rfl

theorem MakeComputer_some (image : List (List Int)) (c0 : CPUInfo)
    (h : MakeComputer image = some c0) : c0.memory = image ∧ c0.clear = nandgate.LO := by
  unfold MakeComputer at h
  simp only [Option.bind_eq_bind, Option.bind_eq_some, Option.pure_def, Option.some.injEq] at h
  obtain ⟨_, _, rfl⟩ := h
  simp

theorem levels_of_memory (c : CPUInfo) (w0 w1 w2 w3 w4 w5 w6 w7 : Lines7)
    (h : c.memory = [Lines7.states w0, Lines7.states w1, Lines7.states w2, Lines7.states w3,
        Lines7.states w4, Lines7.states w5, Lines7.states w6, Lines7.states w7]) :
    c.levels = [w0.toList, w1.toList, w2.toList, w3.toList, w4.toList, w5.toList,
      w6.toList, w7.toList] := by
  simp only [CPUInfo.levels, h, List.map_cons, List.map_nil, levels_states]

theorem Update_of_ROM (c : CPUInfo) (o : Lines7) (h : ROM c.levels c.PCq = some o) :
    c.Update = some (c.wiring o) := by
  unfold CPUInfo.Update
  rw [h]
  rfl

theorem Settled_wiring (d : CPUInfo) (o : Lines7) (h : ROM d.levels d.PCq = some o) :
    (d.wiring o).Settled := by
  obtain ⟨o0, o1, o2, o3, o4, o5, o6⟩ := o
  exact Update_of_ROM (d.wiring (o0, o1, o2, o3, o4, o5, o6)) (o0, o1, o2, o3, o4, o5, o6) h

theorem DFFC_LO (d : nandgate.Level) : nandgate.DFFC d nandgate.LO = d := rfl

theorem image_word (w0 w1 w2 w3 w4 w5 w6 w7 : Lines7) (a : Lines3) :
    [Lines7.states w0, Lines7.states w1, Lines7.states w2, Lines7.states w3,
        Lines7.states w4, Lines7.states w5, Lines7.states w6, Lines7.states w7][val3 a]? =
      some (Lines7.states (pick a w0 w1 w2 w3 w4 w5 w6 w7)) := by
  obtain ⟨a0, a1, a2⟩ := a
  cases a0 <;> cases a1 <;> cases a2 <;> rfl

/-- One `Tick` from a settled state of the circuit built from an image of 8
words of 7 bits: the word at the program counter is some `o`, the `Tick`
returns, and every cell takes the level that the wiring computes from `o` and
the former cell outputs. -/
theorem Tick_of_settled (image : List (List Int)) (c : CPUInfo) (hi : Image8x7 image)
    (hb : BuiltFrom image c) (hs : c.Settled) :
    ∃ o : Lines7, image[val3 c.PCq]? = some (Lines7.states o) ∧
      ∃ c1, c.Tick = some c1 ∧ c1.RAq = (c.wiring o).RAr ∧ c1.RBq = (c.wiring o).RBr ∧
        c1.PCq = (c.wiring o).PCr ∧ c1.Cq = (c.wiring o).Cr ∧
        c1.memory = c.memory ∧ c1.clear = c.clear ∧ c1.Settled := by
  obtain ⟨w0, w1, w2, w3, w4, w5, w6, w7, rfl⟩ := image_of_bits image hi
  obtain ⟨c0, hmk, hmem, hclr⟩ := hb
  obtain ⟨hm0, hc0⟩ := MakeComputer_some _ c0 hmk
  rw [hm0] at hmem
  rw [hc0] at hclr
  have hlev := levels_of_memory c w0 w1 w2 w3 w4 w5 w6 w7 hmem
  have hrom : ∀ d : CPUInfo, d.memory = c.memory →
      d.Update = some (d.wiring (pick d.PCq w0 w1 w2 w3 w4 w5 w6 w7)) := by
    intro d hd
    apply Update_of_ROM
    rw [levels_of_memory d w0 w1 w2 w3 w4 w5 w6 w7 (hd.trans hmem)]
    exact ROM_words _ _ _ _ _ _ _ _ _
  have hfix : c.wiring (pick c.PCq w0 w1 w2 w3 w4 w5 w6 w7) = c :=
    Option.some.inj ((hrom c rfl).symm.trans hs)
  refine ⟨pick c.PCq w0 w1 w2 w3 w4 w5 w6 w7, image_word _ _ _ _ _ _ _ _ _, ?_⟩
  rw [hfix]
  have ht : c.Tick = some (({ c with RAq := c.RAr, RBq := c.RBr, PCq := c.PCr, Cq := c.Cr } :
      CPUInfo).wiring (pick c.PCr w0 w1 w2 w3 w4 w5 w6 w7)) := by
    unfold CPUInfo.Tick
    rw [hclr]
    simp only [DFFC_LO, nandgate.DFF]
    exact hrom _ rfl
  refine ⟨_, ht, rfl, rfl, rfl, rfl, rfl, rfl, ?_⟩
  apply Settled_wiring
  show ROM c.levels c.PCr = _
  rw [hlev]
  exact ROM_words _ _ _ _ _ _ _ _ _

theorem ALU_add_val (a b : Lines4) :
    val4 (ALU a b nandgate.HI).1 = (val4 a + val4 b) % 16 ∧
    bit (ALU a b nandgate.HI).2 = (val4 a + val4 b) / 16 := by
  obtain ⟨a0, a1, a2, a3⟩ := a
  obtain ⟨b0, b1, b2, b3⟩ := b
  cases a0 <;> cases a1 <;> cases a2 <;> cases a3 <;>
    cases b0 <;> cases b1 <;> cases b2 <;> cases b3 <;> decide

theorem Mux_LO (a b : nandgate.Level) : nandgate.Mux a b nandgate.LO = a := by
  cases a <;> cases b <;> rfl

theorem Mux_HI (a b : nandgate.Level) : nandgate.Mux a b nandgate.HI = b := by
  cases a <;> cases b <;> rfl

theorem Selecter_LO (a b : Lines4) : Selecter a b nandgate.LO = a := by
  simp only [Selecter, Mux_LO]

theorem Selecter_HI (a b : Lines4) : Selecter a b nandgate.HI = b := by
  simp only [Selecter, Mux_HI]

theorem Register4_LO (d q : Lines4) : Register4 d nandgate.LO q = q := by
  simp only [Register4, Mux_LO]

theorem Register4_HI (d q : Lines4) : Register4 d nandgate.HI q = d := by
  simp only [Register4, Mux_HI]

theorem Counter3_LO_val (d q : Lines3) :
    val3 (Counter3 d nandgate.LO q) = (val3 q + 1) % 8 := by
  obtain ⟨d0, d1, d2⟩ := d
  obtain ⟨q0, q1, q2⟩ := q
  cases d0 <;> cases d1 <;> cases d2 <;> cases q0 <;> cases q1 <;> cases q2 <;> decide

theorem Decoder_add_A (cin : nandgate.Level) :
    Decoder nandgate.LO nandgate.HI nandgate.LO cin =
      { lda := nandgate.HI, ldb := nandgate.LO, ldpc := nandgate.LO, mode := nandgate.HI,
        sel := nandgate.LO } := by
  cases cin <;> rfl

theorem Decoder_add_B (cin : nandgate.Level) :
    Decoder nandgate.LO nandgate.LO nandgate.HI cin =
      { lda := nandgate.LO, ldb := nandgate.HI, ldpc := nandgate.LO, mode := nandgate.HI,
        sel := nandgate.HI } := by
  cases cin <;> rfl

theorem wiring_add_A (c : CPUInfo) (imm : Lines4) :
    c.wiring (imm.1, imm.2.1, imm.2.2.1, imm.2.2.2, nandgate.LO, nandgate.HI, nandgate.LO) =
      { c with
        RAr := (ALU imm c.RAq nandgate.HI).1
        RBr := c.RBq
        PCr := Counter3 ((ALU imm c.RAq nandgate.HI).1.1, (ALU imm c.RAq nandgate.HI).1.2.1,
          (ALU imm c.RAq nandgate.HI).1.2.2.1) nandgate.LO c.PCq
        Cr := (ALU imm c.RAq nandgate.HI).2 } := by
  simp only [CPUInfo.wiring, Decoder_add_A, Selecter_LO, Register4_LO, Register4_HI, CFlag]

theorem wiring_add_B (c : CPUInfo) (imm : Lines4) :
    c.wiring (imm.1, imm.2.1, imm.2.2.1, imm.2.2.2, nandgate.LO, nandgate.LO, nandgate.HI) =
      { c with
        RAr := c.RAq
        RBr := (ALU imm c.RBq nandgate.HI).1
        PCr := Counter3 ((ALU imm c.RBq nandgate.HI).1.1, (ALU imm c.RBq nandgate.HI).1.2.1,
          (ALU imm c.RBq nandgate.HI).1.2.2.1) nandgate.LO c.PCq
        Cr := (ALU imm c.RBq nandgate.HI).2 } := by
  simp only [CPUInfo.wiring, Decoder_add_B, Selecter_HI, Register4_LO, Register4_HI, CFlag]

theorem states_word (o : Lines7) (imm : Lines4) (x4 x5 x6 : nandgate.Level)
    (h : some (Lines7.states o) = some [State imm.1, State imm.2.1, State imm.2.2.1,
      State imm.2.2.2, State x4, State x5, State x6]) :
    o = (imm.1, imm.2.1, imm.2.2.1, imm.2.2.2, x4, x5, x6) :=
  states_injective o (imm.1, imm.2.1, imm.2.2.1, imm.2.2.2, x4, x5, x6) (Option.some.inj h)

/-- The model of `Tick`, `Update` and the cells passes `TestCounter3` of
`computer_test.go`: every one of its 17 rows gives the expected output. -/
theorem TestCounter3_passes :
    TestCounter3.loop TestCounter3.init TestCounter3.ps = List.replicate 17 true := by
  decide

theorem ALU_bypass_eq (a b : Lines4) : ALU a b nandgate.LO = (a, nandgate.LO) := by
  obtain ⟨a0, a1, a2, a3⟩ := a
  obtain ⟨b0, b1, b2, b3⟩ := b
  cases a0 <;> cases a1 <;> cases a2 <;> cases a3 <;>
    cases b0 <;> cases b1 <;> cases b2 <;> cases b3 <;> rfl

theorem Counter3_HI (d q : Lines3) : Counter3 d nandgate.HI q = d := by
  simp only [Counter3, Mux_HI]

theorem val3_low (imm : Lines4) : val3 (imm.1, imm.2.1, imm.2.2.1) = val4 imm % 8 := by
  obtain ⟨i0, i1, i2, i3⟩ := imm
  cases i0 <;> cases i1 <;> cases i2 <;> cases i3 <;> rfl

theorem val3_injective (a b : Lines3) (h : val3 a = val3 b) : a = b := by
  obtain ⟨a0, a1, a2⟩ := a
  obtain ⟨b0, b1, b2⟩ := b
  revert h
  cases a0 <;> cases a1 <;> cases a2 <;> cases b0 <;> cases b1 <;> cases b2 <;> decide

theorem Decoder_mov_A (cin : nandgate.Level) :
    Decoder nandgate.HI nandgate.HI nandgate.LO cin =
      { lda := nandgate.HI, ldb := nandgate.LO, ldpc := nandgate.LO, mode := nandgate.LO,
        sel := nandgate.LO } := by
  cases cin <;> rfl

theorem Decoder_mov_B (cin : nandgate.Level) :
    Decoder nandgate.HI nandgate.LO nandgate.HI cin =
      { lda := nandgate.LO, ldb := nandgate.HI, ldpc := nandgate.LO, mode := nandgate.LO,
        sel := nandgate.HI } := by
  cases cin <;> rfl

theorem Decoder_jnc (cin : nandgate.Level) :
    Decoder nandgate.LO nandgate.HI nandgate.HI cin =
      { lda := nandgate.LO, ldb := nandgate.LO, ldpc := !cin, mode := nandgate.LO,
        sel := nandgate.LO } := by
  cases cin <;> rfl

theorem Decoder_jmp (cin : nandgate.Level) :
    Decoder nandgate.HI nandgate.HI nandgate.HI cin =
      { lda := nandgate.LO, ldb := nandgate.LO, ldpc := nandgate.HI, mode := nandgate.LO,
        sel := nandgate.LO } := by
  cases cin <;> rfl

theorem Decoder_nop (i0 cin : nandgate.Level) :
    Decoder i0 nandgate.LO nandgate.LO cin =
      { lda := nandgate.LO, ldb := nandgate.LO, ldpc := nandgate.LO, mode := nandgate.LO,
        sel := nandgate.LO } := by
  cases i0 <;> cases cin <;> rfl

/-- The levels the wiring leaves on the lines that feed the cells, for any ROM
output: each register and the counter get the ALU result behind a selector
that the decoder's load line drives. -/
theorem wiring_fields (c : CPUInfo) (o0 o1 o2 o3 o4 o5 o6 : nandgate.Level) :
    (c.wiring (o0, o1, o2, o3, o4, o5, o6)).RAr =
      Register4 (ALU (o0, o1, o2, o3) (Selecter c.RAq c.RBq (Decoder o4 o5 o6 c.Cq).sel)
        (Decoder o4 o5 o6 c.Cq).mode).1 (Decoder o4 o5 o6 c.Cq).lda c.RAq ∧
    (c.wiring (o0, o1, o2, o3, o4, o5, o6)).RBr =
      Register4 (ALU (o0, o1, o2, o3) (Selecter c.RAq c.RBq (Decoder o4 o5 o6 c.Cq).sel)
        (Decoder o4 o5 o6 c.Cq).mode).1 (Decoder o4 o5 o6 c.Cq).ldb c.RBq ∧
    (c.wiring (o0, o1, o2, o3, o4, o5, o6)).PCr =
      Counter3
        ((ALU (o0, o1, o2, o3) (Selecter c.RAq c.RBq (Decoder o4 o5 o6 c.Cq).sel)
          (Decoder o4 o5 o6 c.Cq).mode).1.1,
         (ALU (o0, o1, o2, o3) (Selecter c.RAq c.RBq (Decoder o4 o5 o6 c.Cq).sel)
          (Decoder o4 o5 o6 c.Cq).mode).1.2.1,
         (ALU (o0, o1, o2, o3) (Selecter c.RAq c.RBq (Decoder o4 o5 o6 c.Cq).sel)
          (Decoder o4 o5 o6 c.Cq).mode).1.2.2.1)
        (Decoder o4 o5 o6 c.Cq).ldpc c.PCq ∧
    (c.wiring (o0, o1, o2, o3, o4, o5, o6)).Cr =
      (ALU (o0, o1, o2, o3) (Selecter c.RAq c.RBq (Decoder o4 o5 o6 c.Cq).sel)
        (Decoder o4 o5 o6 c.Cq).mode).2 :=
  ⟨rfl, rfl, rfl, rfl⟩

theorem wiring_mov_A (c : CPUInfo) (imm : Lines4) :
    c.wiring (imm.1, imm.2.1, imm.2.2.1, imm.2.2.2, nandgate.HI, nandgate.HI, nandgate.LO) =
      { c with
        RAr := imm
        RBr := c.RBq
        PCr := Counter3 (imm.1, imm.2.1, imm.2.2.1) nandgate.LO c.PCq
        Cr := nandgate.LO } := by
  simp only [CPUInfo.wiring, Decoder_mov_A, ALU_bypass_eq, Register4_LO, Register4_HI, CFlag]

theorem wiring_mov_B (c : CPUInfo) (imm : Lines4) :
    c.wiring (imm.1, imm.2.1, imm.2.2.1, imm.2.2.2, nandgate.HI, nandgate.LO, nandgate.HI) =
      { c with
        RAr := c.RAq
        RBr := imm
        PCr := Counter3 (imm.1, imm.2.1, imm.2.2.1) nandgate.LO c.PCq
        Cr := nandgate.LO } := by
  simp only [CPUInfo.wiring, Decoder_mov_B, ALU_bypass_eq, Register4_LO, Register4_HI, CFlag]

theorem wiring_jnc (c : CPUInfo) (imm : Lines4) :
    c.wiring (imm.1, imm.2.1, imm.2.2.1, imm.2.2.2, nandgate.LO, nandgate.HI, nandgate.HI) =
      { c with
        RAr := c.RAq
        RBr := c.RBq
        PCr := Counter3 (imm.1, imm.2.1, imm.2.2.1) (!c.Cq) c.PCq
        Cr := nandgate.LO } := by
  simp only [CPUInfo.wiring, Decoder_jnc, ALU_bypass_eq, Register4_LO, CFlag]

theorem wiring_jmp (c : CPUInfo) (imm : Lines4) :
    c.wiring (imm.1, imm.2.1, imm.2.2.1, imm.2.2.2, nandgate.HI, nandgate.HI, nandgate.HI) =
      { c with
        RAr := c.RAq
        RBr := c.RBq
        PCr := (imm.1, imm.2.1, imm.2.2.1)
        Cr := nandgate.LO } := by
  simp only [CPUInfo.wiring, Decoder_jmp, ALU_bypass_eq, Register4_LO, Counter3_HI, CFlag]

theorem wiring_nop (c : CPUInfo) (imm : Lines4) (i0 : nandgate.Level) :
    c.wiring (imm.1, imm.2.1, imm.2.2.1, imm.2.2.2, i0, nandgate.LO, nandgate.LO) =
      { c with
        RAr := c.RAq
        RBr := c.RBq
        PCr := Counter3 (imm.1, imm.2.1, imm.2.2.1) nandgate.LO c.PCq
        Cr := nandgate.LO } := by
  simp only [CPUInfo.wiring, Decoder_nop, ALU_bypass_eq, Register4_LO, CFlag]

theorem BuiltFrom_of_same (image : List (List Int)) (c c1 : CPUInfo) (hb : BuiltFrom image c)
    (hm : c1.memory = c.memory) (hc : c1.clear = c.clear) : BuiltFrom image c1 := by
  obtain ⟨c0, hmk, hmem, hclr⟩ := hb
  exact ⟨c0, hmk, hm.trans hmem, hc.trans hclr⟩

/-- A settled circuit that sits on a jump to its own address stays there: the
program counter and both registers are the same after any number of ticks. -/
theorem jmp_self_stays (image : List (List Int)) (imm : Lines4) (hi : Image8x7 image) (n : Nat) :
    ∀ c : CPUInfo, BuiltFrom image c → c.Settled →
      image[val3 c.PCq]? = some [State imm.1, State imm.2.1, State imm.2.2.1, State imm.2.2.2,
        1, 1, 1] →
      val4 imm % 8 = val3 c.PCq →
      ∃ cn, TickTocks n c = some cn ∧ cn.PCq = c.PCq ∧ cn.RAq = c.RAq ∧ cn.RBq = c.RBq := by
  induction n with
  | zero => intro c _ _ _ _; exact ⟨c, rfl, rfl, rfl, rfl⟩
  | succ n ih =>
    intro c hb hs hw hself
    obtain ⟨o, ho, c1, ht, hA, hB, hPC, -, hm, hc, hs1⟩ := Tick_of_settled image c hi hb hs
    have hoe := states_word o imm nandgate.HI nandgate.HI nandgate.HI (ho.symm.trans hw)
    rw [hoe, wiring_jmp] at hA hB hPC
    have hpc : c1.PCq = c.PCq := by
      rw [hPC]
      exact val3_injective _ _ ((val3_low imm).trans hself)
    have hw1 : image[val3 c1.PCq]? = some [State imm.1, State imm.2.1, State imm.2.2.1,
        State imm.2.2.2, 1, 1, 1] := by rw [hpc]; exact hw
    obtain ⟨cn, hn, h1, h2, h3⟩ := ih c1 (BuiltFrom_of_same image c c1 hb hm hc) hs1 hw1
      (by rw [hpc]; exact hself)
    refine ⟨cn, ?_, h1.trans hpc, h2.trans hA, h3.trans hB⟩
    show (c.Tick).bind (TickTocks n) = some cn
    rw [ht]
    exact hn

theorem Decoder_exclusive (i0 i1 i2 cin : nandgate.Level) :
    ¬ ((Decoder i0 i1 i2 cin).lda = nandgate.HI ∧ (Decoder i0 i1 i2 cin).ldb = nandgate.HI) ∧
    ¬ ((Decoder i0 i1 i2 cin).lda = nandgate.HI ∧ (Decoder i0 i1 i2 cin).ldpc = nandgate.HI) ∧
    ¬ ((Decoder i0 i1 i2 cin).ldb = nandgate.HI ∧ (Decoder i0 i1 i2 cin).ldpc = nandgate.HI) := by
  cases i0 <;> cases i1 <;> cases i2 <;> cases cin <;> decide

/-- A register whose load line is low holds, and a counter whose load line is
low counts, whatever the ROM outputs and whatever the ALU computes. -/
theorem wiring_not_loaded (c : CPUInfo) (o : Lines7) :
    ((Decoder o.2.2.2.2.1 o.2.2.2.2.2.1 o.2.2.2.2.2.2 c.Cq).lda = nandgate.LO →
      (c.wiring o).RAr = c.RAq) ∧
    ((Decoder o.2.2.2.2.1 o.2.2.2.2.2.1 o.2.2.2.2.2.2 c.Cq).ldb = nandgate.LO →
      (c.wiring o).RBr = c.RBq) ∧
    ((Decoder o.2.2.2.2.1 o.2.2.2.2.2.1 o.2.2.2.2.2.2 c.Cq).ldpc = nandgate.LO →
      val3 (c.wiring o).PCr = (val3 c.PCq + 1) % 8) := by
  obtain ⟨o0, o1, o2, o3, o4, o5, o6⟩ := o
  obtain ⟨hA, hB, hPC, -⟩ := wiring_fields c o0 o1 o2 o3 o4 o5 o6
  refine ⟨fun h => ?_, fun h => ?_, fun h => ?_⟩
  · rw [hA]; simp only at h; rw [h, Register4_LO]
  · rw [hB]; simp only at h; rw [h, Register4_LO]
  · rw [hPC]; simp only at h; rw [h]; exact Counter3_LO_val _ _

theorem TickTocks_add (a b : Nat) : ∀ c : CPUInfo,
    TickTocks (a + b) c = (TickTocks a c).bind (TickTocks b) := by
  induction a with
  | zero => intro c; simp [TickTocks]
  | succ a ih =>
    intro c
    rw [Nat.succ_add]
    show (TickTock c).bind (TickTocks (a + b)) = ((TickTock c).bind (TickTocks a)).bind _
    cases h : TickTock c with
    | none => rfl
    | some c1 => exact ih c1

theorem TickTocks_fixed (c : CPUInfo) (h : TickTock c = some c) (n : Nat) :
    TickTocks n c = some c := by
  induction n with
  | zero => rfl
  | succ n ih =>
    show (TickTock c).bind (TickTocks n) = some c
    rw [h]
    exact ih

set_option maxRecDepth 100000 in
theorem run_sample_12 : run memoryimage 12 = some sampleAtJmp := by decide

theorem sampleAtJmp_fixed : TickTock sampleAtJmp = some sampleAtJmp := by decide

theorem foldl_append_map {α β : Type} (f : α → β) (l : List α) :
    ∀ acc : List β, l.foldl (fun r m => r ++ [f m]) acc = acc ++ l.map f := by
  induction l with
  | nil => intro acc; simp
  | cons x xs ih => intro acc; simp [ih]

theorem lineToInt_eq (lines : List Int) : lineToInt lines = lines := by
  unfold lineToInt
  rw [foldl_append_map (fun x => x)]
  simp

theorem Memory_eq (c : CPUInfo) : c.Memory = c.memory := by
  unfold CPUInfo.Memory
  rw [foldl_append_map]
  have h : lineToInt = id := funext lineToInt_eq
  rw [h, List.map_id, List.nil_append]

/-- On a circuit whose memory is an image of 8 words of 7 bits, settled or not,
a `Tick` returns, and it changes neither a memory line nor the reset line. -/
theorem Tick_memory (image : List (List Int)) (c : CPUInfo) (hi : Image8x7 image)
    (hmem : c.memory = image) :
    ∃ c1, c.Tick = some c1 ∧ c1.memory = c.memory ∧ c1.clear = c.clear := by
  obtain ⟨w0, w1, w2, w3, w4, w5, w6, w7, rfl⟩ := image_of_bits image hi
  have hu : ∀ d : CPUInfo, d.memory = c.memory →
      d.Update = some (d.wiring (pick d.PCq w0 w1 w2 w3 w4 w5 w6 w7)) := by
    intro d hd
    apply Update_of_ROM
    rw [levels_of_memory d w0 w1 w2 w3 w4 w5 w6 w7 (hd.trans hmem)]
    exact ROM_words _ _ _ _ _ _ _ _ _
  unfold CPUInfo.Tick
  exact ⟨_, hu _ rfl, rfl, rfl⟩

theorem TickTocks_memory (image : List (List Int)) (hi : Image8x7 image) (n : Nat) :
    ∀ c : CPUInfo, c.memory = image → ∃ cn, TickTocks n c = some cn ∧ cn.memory = image := by
  induction n with
  | zero => intro c h; exact ⟨c, rfl, h⟩
  | succ n ih =>
    intro c h
    obtain ⟨c1, ht, hm, -⟩ := Tick_memory image c hi h
    obtain ⟨cn, hn, hmn⟩ := ih c1 (hm.trans h)
    refine ⟨cn, ?_, hmn⟩
    show (c.Tick).bind (TickTocks n) = some cn
    rw [ht]
    exact hn

theorem MakeComputer_of_image (image : List (List Int)) (hi : Image8x7 image) :
    ∃ c0, MakeComputer image = some c0 ∧ c0.memory = image := by
  obtain ⟨w0, w1, w2, w3, w4, w5, w6, w7, rfl⟩ := image_of_bits image hi
  unfold MakeComputer
  simp only [List.map_cons, List.map_nil, List.map_id', levels_states, ROM_words,
    Option.bind_eq_bind, Option.some_bind, Option.pure_def]
  exact ⟨_, rfl, rfl⟩

theorem step_q (n : Counter3Net) (d : Lines3) (load clear : nandgate.Level) :
    (TestCounter3.step n d load clear).q =
      (nandgate.DFFC n.r.1 clear, nandgate.DFFC n.r.2.1 clear, nandgate.DFFC n.r.2.2 clear) :=
  rfl

theorem step_r (n : Counter3Net) (d : Lines3) (load clear : nandgate.Level) :
    (TestCounter3.step n d load clear).r =
      Counter3 d load (TestCounter3.step n d load clear).q :=
  rfl

theorem DFFC3_eq (r : Lines3) (clear : nandgate.Level) :
    (nandgate.DFFC r.1 clear, nandgate.DFFC r.2.1 clear, nandgate.DFFC r.2.2 clear) =
      if clear = nandgate.HI then (nandgate.LO, nandgate.LO, nandgate.LO) else r := by
  cases clear <;> rfl

theorem step_q_LO (n : Counter3Net) (d : Lines3) (load : nandgate.Level) :
    (TestCounter3.step n d load nandgate.LO).q = n.r :=
  rfl

theorem step_q_init (d : Lines3) (load clear : nandgate.Level) :
    (TestCounter3.step TestCounter3.init d load clear).q =
      (nandgate.LO, nandgate.LO, nandgate.LO) := by
  cases clear <;> rfl

set_option maxRecDepth 100000 in
theorem trace_sample :
    (List.range 13).map (trace memoryimage) =
      [some (0, 0, 0, 0), some (0, 0, 0, 0), some (0, 0, 1, 0), some (13, 0, 2, 0),
       some (13, 3, 3, 0), some (14, 3, 4, 0), some (14, 3, 2, 0), some (14, 6, 3, 0),
       some (15, 6, 4, 0), some (15, 6, 2, 0), some (15, 9, 3, 0), some (0, 9, 4, 1),
       some (0, 9, 5, 0)] := by
  decide

theorem ROMline_none_of (memory : List (List nandgate.Level))
    (s : nandgate.Level × nandgate.Level × nandgate.Level × nandgate.Level × nandgate.Level ×
      nandgate.Level × nandgate.Level × nandgate.Level) (i k : Nat) (hk : k < 8)
    (h : memoryLine memory k i = none) : ROMline memory s i = none := by
  unfold ROMline
  interval_cases k <;> simp [h]

theorem ROM_none_of (memory : List (List nandgate.Level)) (inp : Lines3) (i : Nat) (hi : i < 7)
    (h : ROMline memory (nandgate.BDec3 inp.1 inp.2.1 inp.2.2) i = none) :
    ROM memory inp = none := by
  unfold ROM
  interval_cases i <;> simp [h]

theorem MakeComputer_none_of (image : List (List Int)) (k i : Nat) (hk : k < 8) (hi : i < 7)
    (h : ∀ w, image[k]? = some w → w.length ≤ i) : MakeComputer image = none := by
  have hm : memoryLine ((image.map (fun w => w.map (fun x => x))).map
      (fun m => m.map levelOf)) k i = none := by
    unfold memoryLine
    cases hw : image[k]? with
    | none => simp [hw]
    | some w => simp [hw, h w hw]
  unfold MakeComputer
  simp only [Option.bind_eq_bind]
  rw [ROM_none_of _ _ i hi (ROMline_none_of _ _ i k hk hm)]
  rfl

theorem MakeComputer_short (image : List (List Int)) (h : image.length < 8) :
    MakeComputer image = none := by
  apply MakeComputer_none_of image 7 0 (by decide) (by decide)
  intro w hw
  have hlt := (List.getElem?_eq_some_iff.mp hw).1
  omega

theorem MakeComputer_narrow (image : List (List Int)) (k : Nat) (hk : k < 8) (w : List Int)
    (hw : image[k]? = some w) (hlen : w.length < 7) : MakeComputer image = none := by
  apply MakeComputer_none_of image k 6 hk (by decide)
  intro w1 hw1
  have e : w1 = w := Option.some.inj (hw1.symm.trans hw)
  rw [e]
  omega

theorem word_of_wide (w : List Int) (h : 7 ≤ w.length) :
    ∃ x0 x1 x2 x3 x4 x5 x6 rest, w = x0 :: x1 :: x2 :: x3 :: x4 :: x5 :: x6 :: rest := by
  match w, h with
  | x0 :: x1 :: x2 :: x3 :: x4 :: x5 :: x6 :: rest, _ =>
    exact ⟨x0, x1, x2, x3, x4, x5, x6, rest, rfl⟩

theorem MakeComputer_fits (image : List (List Int)) (h8 : 8 ≤ image.length)
    (h7 : ∀ w ∈ image.take 8, 7 ≤ w.length) :
    ∃ c0, MakeComputer image = some c0 ∧ c0.memory = image := by
  match image, h8 with
  | m0 :: m1 :: m2 :: m3 :: m4 :: m5 :: m6 :: m7 :: rest, _ =>
    obtain ⟨a0, a1, a2, a3, a4, a5, a6, ra, rfl⟩ := word_of_wide m0 (h7 _ (by simp))
    obtain ⟨b0, b1, b2, b3, b4, b5, b6, rb, rfl⟩ := word_of_wide m1 (h7 _ (by simp))
    obtain ⟨c0, c1, c2, c3, c4, c5, c6, rc, rfl⟩ := word_of_wide m2 (h7 _ (by simp))
    obtain ⟨d0, d1, d2, d3, d4, d5, d6, rd, rfl⟩ := word_of_wide m3 (h7 _ (by simp))
    obtain ⟨e0, e1, e2, e3, e4, e5, e6, re, rfl⟩ := word_of_wide m4 (h7 _ (by simp))
    obtain ⟨f0, f1, f2, f3, f4, f5, f6, rf, rfl⟩ := word_of_wide m5 (h7 _ (by simp))
    obtain ⟨g0, g1, g2, g3, g4, g5, g6, rg, rfl⟩ := word_of_wide m6 (h7 _ (by simp))
    obtain ⟨h0, h1, h2, h3, h4, h5, h6, rh, rfl⟩ := word_of_wide m7 (h7 _ (by simp))
    have hsome : (MakeComputer
        ((a0 :: a1 :: a2 :: a3 :: a4 :: a5 :: a6 :: ra) ::
          (b0 :: b1 :: b2 :: b3 :: b4 :: b5 :: b6 :: rb) ::
          (c0 :: c1 :: c2 :: c3 :: c4 :: c5 :: c6 :: rc) ::
          (d0 :: d1 :: d2 :: d3 :: d4 :: d5 :: d6 :: rd) ::
          (e0 :: e1 :: e2 :: e3 :: e4 :: e5 :: e6 :: re) ::
          (f0 :: f1 :: f2 :: f3 :: f4 :: f5 :: f6 :: rf) ::
          (g0 :: g1 :: g2 :: g3 :: g4 :: g5 :: g6 :: rg) ::
          (h0 :: h1 :: h2 :: h3 :: h4 :: h5 :: h6 :: rh) :: rest)).isSome = true := by
      simp [MakeComputer, ROM, ROMline, memoryLine]
    obtain ⟨k0, hk0⟩ := Option.isSome_iff_exists.mp hsome
    exact ⟨k0, hk0, (MakeComputer_some _ k0 hk0).1⟩

theorem ROM_short (memory : List (List nandgate.Level)) (h : memory.length < 8)
    (inp : Lines3) : ROM memory inp = none := by
  apply ROM_none_of memory inp 0 (by decide)
  apply ROMline_none_of memory _ 0 7 (by decide)
  unfold memoryLine
  have h7 : memory[7]? = none := List.getElem?_eq_none (by omega)
  simp [h7]

theorem MakeComputer_isSome_iff (image : List (List Int)) :
    (MakeComputer image).isSome = true ↔
      (8 ≤ image.length ∧ ∀ w ∈ image.take 8, 7 ≤ w.length) := by
  constructor
  · intro h
    by_contra hn
    have hnone : MakeComputer image = none := by
      by_cases h8 : 8 ≤ image.length
      · have hex : ∃ w ∈ image.take 8, w.length < 7 := by
          by_contra hne
          apply hn
          refine ⟨h8, fun w hw => ?_⟩
          by_contra hlt
          exact hne ⟨w, hw, by omega⟩
        obtain ⟨w, hw, hlt⟩ := hex
        obtain ⟨k, hk⟩ := List.mem_iff_getElem?.mp hw
        rw [List.getElem?_take] at hk
        by_cases hk8 : k < 8
        · rw [if_pos hk8] at hk
          exact MakeComputer_narrow image k hk8 w hk hlt
        · rw [if_neg hk8] at hk
          exact absurd hk (by simp)
      · exact MakeComputer_short image (by omega)
    rw [hnone] at h
    exact absurd h (by simp)
  · rintro ⟨h8, h7⟩
    obtain ⟨c0, hc, -⟩ := MakeComputer_fits image h8 h7
    rw [hc]
    rfl

theorem convertLoop_binary (l : List Char) :
    ∀ result : List Int, (∀ r ∈ l, r = '0' ∨ r = '1') →
      convertLoop l result = result ++ l.map (fun r => if r = '1' then 1 else 0) := by
  induction l with
  | nil => intro result _; simp [convertLoop]
  | cons r rest ih =>
    intro result h
    have hrest : ∀ x ∈ rest, x = '0' ∨ x = '1' := fun x hx => h x (List.mem_cons_of_mem _ hx)
    rcases h r (List.mem_cons_self _ _) with h0 | h1
    · subst h0
      have e : convertLoop ('0' :: rest) result = convertLoop rest (result ++ [0]) := by
        simp [convertLoop]
      rw [e, ih _ hrest]
      simp
    · subst h1
      have e : convertLoop ('1' :: rest) result = convertLoop rest (result ++ [1]) := by
        simp [convertLoop]
      rw [e, ih _ hrest]
      simp

theorem convertLoop_mem (l : List Char) :
    ∀ result : List Int, (∀ x ∈ result, x = 0 ∨ x = 1) →
      ∀ x ∈ convertLoop l result, x = 0 ∨ x = 1 := by
  induction l with
  | nil => intro result h; simpa [convertLoop] using h
  | cons r rest ih =>
    intro result h
    unfold convertLoop
    split
    · exact h
    · split
      · apply ih
        intro x hx
        rcases List.mem_append.mp hx with hx | hx
        · exact h x hx
        · exact Or.inl (by simpa using hx)
      · split
        · apply ih
          intro x hx
          rcases List.mem_append.mp hx with hx | hx
          · exact h x hx
          · exact Or.inr (by simpa using hx)
        · exact ih result h

theorem convertLoop_cut (a b : List Char) :
    ∀ result : List Int, convertLoop (a ++ '#' :: b) result = convertLoop a result := by
  induction a with
  | nil => intro result; simp [convertLoop]
  | cons r rest ih =>
    intro result
    show convertLoop (r :: (rest ++ '#' :: b)) result = convertLoop (r :: rest) result
    unfold convertLoop
    simp only [ih]

theorem ToString_data (l : List Int) :
    ∀ s : String, (∀ x ∈ l, x = 0 ∨ x = 1) →
      (l.foldl (fun s i =>
        if i = 1 then s ++ "1"
        else if i = 0 then s ++ "0"
        else s ++ "-") s).data = s.data ++ l.map (fun i => if i = 1 then '1' else '0') := by
  induction l with
  | nil => intro s _; simp
  | cons i rest ih =>
    intro s h
    have hrest : ∀ x ∈ rest, x = 0 ∨ x = 1 := fun x hx => h x (List.mem_cons_of_mem _ hx)
    rcases h i (List.mem_cons_self _ _) with h0 | h1
    · subst h0
      simp only [List.foldl_cons, List.map_cons]
      rw [ih _ hrest]
      simp [String.data_append]
    · subst h1
      simp only [List.foldl_cons, List.map_cons]
      rw [ih _ hrest]
      simp [String.data_append]

theorem ToRunes_eq (s : String) : ToRunes s = s.toList.reverse := by
  unfold ToRunes
  rw [foldl_append_map (fun r => r)]
  simp

theorem map_digit_char (l : List Char) (h : ∀ r ∈ l, r = '0' ∨ r = '1') :
    (l.map (fun r => if r = '1' then (1 : Int) else 0)).map
      (fun i => if i = 1 then '1' else '0') = l := by
  induction l with
  | nil => rfl
  | cons r rest ih =>
    have hrest : ∀ x ∈ rest, x = '0' ∨ x = '1' := fun x hx => h x (List.mem_cons_of_mem _ hx)
    rcases h r (List.mem_cons_self _ _) with h0 | h1
    · subst h0
      simp only [List.map_cons, ih hrest]
      simp
    · subst h1
      simp only [List.map_cons, ih hrest]
      simp

end Lemmas

/-! ## The claims -/

/-- C1: ALU in add mode. For every pair of 4-bit operands `a` and `b` (bit 0
least significant) with `mode` high, the settled result stands for
`(A + B) mod 16` and the settled carry-out for `(A + B) / 16`. -/
theorem C1_ALU_add (a b : cpu3bit.Lines4) :
    cpu3bit.val4 (cpu3bit.ALU a b nandgate.HI).1 = (cpu3bit.val4 a + cpu3bit.val4 b) % 16 ∧
    cpu3bit.bit (cpu3bit.ALU a b nandgate.HI).2 = (cpu3bit.val4 a + cpu3bit.val4 b) / 16 :=
  ALU_add_val a b

/-- C2: ALU in bypass mode. For every pair of 4-bit operands `a` and `b` with
`mode` low, the settled result is `a` bit for bit and the settled carry-out is
low, whatever `b` is. -/
theorem C2_ALU_bypass (a b : cpu3bit.Lines4) :
    cpu3bit.ALU a b nandgate.LO = (a, nandgate.LO) := by
  obtain ⟨a0, a1, a2, a3⟩ := a
  obtain ⟨b0, b1, b2, b3⟩ := b
  cases a0 <;> cases a1 <;> cases a2 <;> cases a3 <;>
    cases b0 <;> cases b1 <;> cases b2 <;> cases b3 <;> rfl

/-- C3: decoder truth table. For every opcode `(i2, i1, i0)` and carry-in
`cin`: `lda` is high exactly for 010 and 011, `ldb` exactly for 100 and 101,
`ldpc` exactly for 111 and for 110 with `cin` low, `mode` exactly for 010 and
100, `sel` exactly for 100 and 101; the opcodes 000 and 001, and 110 with `cin`
high, assert no load line. -/
theorem C3_Decoder_table (i0 i1 i2 cin : nandgate.Level) :
    ((cpu3bit.Decoder i0 i1 i2 cin).lda = nandgate.HI ↔
      (i2 = nandgate.LO ∧ i1 = nandgate.HI)) ∧
    ((cpu3bit.Decoder i0 i1 i2 cin).ldb = nandgate.HI ↔
      (i2 = nandgate.HI ∧ i1 = nandgate.LO)) ∧
    ((cpu3bit.Decoder i0 i1 i2 cin).ldpc = nandgate.HI ↔
      (i2 = nandgate.HI ∧ i1 = nandgate.HI ∧ (i0 = nandgate.HI ∨ cin = nandgate.LO))) ∧
    ((cpu3bit.Decoder i0 i1 i2 cin).mode = nandgate.HI ↔
      (i0 = nandgate.LO ∧ ((i2 = nandgate.LO ∧ i1 = nandgate.HI) ∨
        (i2 = nandgate.HI ∧ i1 = nandgate.LO)))) ∧
    ((cpu3bit.Decoder i0 i1 i2 cin).sel = nandgate.HI ↔
      (i2 = nandgate.HI ∧ i1 = nandgate.LO)) ∧
    ((cpu3bit.Decoder i0 nandgate.LO nandgate.LO cin).lda = nandgate.LO ∧
      (cpu3bit.Decoder i0 nandgate.LO nandgate.LO cin).ldb = nandgate.LO ∧
      (cpu3bit.Decoder i0 nandgate.LO nandgate.LO cin).ldpc = nandgate.LO) ∧
    ((cpu3bit.Decoder nandgate.LO nandgate.HI nandgate.HI nandgate.HI).lda = nandgate.LO ∧
      (cpu3bit.Decoder nandgate.LO nandgate.HI nandgate.HI nandgate.HI).ldb = nandgate.LO ∧
      (cpu3bit.Decoder nandgate.LO nandgate.HI nandgate.HI nandgate.HI).ldpc = nandgate.LO) := by
  cases i0 <;> cases i1 <;> cases i2 <;> cases cin <;> decide

/-- C4: Counter3 increment. From a settled network with `load` low and `clear`
low, one `Tick` followed by `Update` leaves on the output the number
`(n + 1) mod 8`, whatever the data lines carry: bit 0 toggles, bit 1 toggles
exactly when bit 0 was high, bit 2 toggles exactly when bits 0 and 1 were
both high. -/
theorem C4_Counter3_increment (n : cpu3bit.Counter3Net) (hs : n.Settled)
    (hload : n.load = nandgate.LO) (hclear : n.clear = nandgate.LO) :
    cpu3bit.val3 n.Tick.Update.q = (cpu3bit.val3 n.q + 1) % 8 ∧
    n.Tick.Update.q.1 = (!n.q.1) ∧
    (n.Tick.Update.q.2.1 ≠ n.q.2.1 ↔ n.q.1 = nandgate.HI) ∧
    (n.Tick.Update.q.2.2 ≠ n.q.2.2 ↔ (n.q.1 = nandgate.HI ∧ n.q.2.1 = nandgate.HI)) := by
  have hr := Counter3Net_settled_r n hs
  obtain ⟨⟨d0, d1, d2⟩, load, clear, r, ⟨q0, q1, q2⟩⟩ := n
  simp only at hload hclear hr
  subst hload hclear hr
  cases d0 <;> cases d1 <;> cases d2 <;> cases q0 <;> cases q1 <;> cases q2 <;> decide

/-- Witness of C4: the counter at 7, settled with data 7, `load` low and
`clear` low, wraps to 0. -/
theorem C4_Counter3_increment_witness :
    (cpu3bit.Counter3Net.mk (true, true, true) false false
      (false, false, false) (true, true, true)).Settled ∧
    cpu3bit.val3 (cpu3bit.Counter3Net.mk (true, true, true) false false
      (false, false, false) (true, true, true)).Tick.Update.q = (7 + 1) % 8 :=
  ⟨by decide, (C4_Counter3_increment
    (cpu3bit.Counter3Net.mk (true, true, true) false false
      (false, false, false) (true, true, true)) (by decide) rfl rfl).1⟩

/-- C5: Counter3 load. From a settled network with `load` high and `clear`
low, one `Tick` leaves the data `d` on the output, whatever the counter held
before; a further `Update` changes nothing of it. -/
theorem C5_Counter3_load (n : cpu3bit.Counter3Net) (hs : n.Settled)
    (hload : n.load = nandgate.HI) (hclear : n.clear = nandgate.LO) :
    n.Tick.q = n.d ∧ n.Tick.Update.q = n.d := by
  have hr := Counter3Net_settled_r n hs
  obtain ⟨⟨d0, d1, d2⟩, load, clear, r, ⟨q0, q1, q2⟩⟩ := n
  simp only at hload hclear hr
  subst hload hclear hr
  cases d0 <;> cases d1 <;> cases d2 <;> cases q0 <;> cases q1 <;> cases q2 <;> decide

/-- Witness of C5: a settled counter at 5 with `load` high takes the data 2. -/
theorem C5_Counter3_load_witness :
    (cpu3bit.Counter3Net.mk (false, true, false) true false
      (false, true, false) (true, false, true)).Tick.q = (false, true, false) :=
  (C5_Counter3_load
    (cpu3bit.Counter3Net.mk (false, true, false) true false
      (false, true, false) (true, false, true)) (by decide) rfl rfl).1

/-- C6: Counter3 clear. Whatever the counter holds, whatever the data and load
lines and the lines that feed the cells carry, a `Tick` with `clear` high
leaves 000 on the output; a further `Update` changes nothing of it. -/
theorem C6_Counter3_clear (n : cpu3bit.Counter3Net) (hclear : n.clear = nandgate.HI) :
    n.Tick.q = (nandgate.LO, nandgate.LO, nandgate.LO) ∧
    n.Tick.Update.q = (nandgate.LO, nandgate.LO, nandgate.LO) := by
  obtain ⟨d, load, clear, r, q⟩ := n
  simp only at hclear
  subst hclear
  exact ⟨rfl, rfl⟩

/-- Witness of C6: a counter at 7 with `load` high, data 7 and `clear` high. -/
theorem C6_Counter3_clear_witness :
    (cpu3bit.Counter3Net.mk (true, true, true) true true
      (true, true, true) (true, true, true)).Tick.q = (false, false, false) :=
  (C6_Counter3_clear
    (cpu3bit.Counter3Net.mk (true, true, true) true true
      (true, true, true) (true, true, true)) rfl).1

/-- C7: Register4 load and hold. From a settled network with `clear` low, one
`Tick` leaves on the output the data `d` when `load` is high and the former
output when `load` is low; a further `Update` changes nothing of it. -/
theorem C7_Register4_load_hold (n : cpu3bit.Register4Net) (hs : n.Settled)
    (hclear : n.clear = nandgate.LO) :
    n.Tick.q = (if n.load = nandgate.HI then n.d else n.q) ∧
    n.Tick.Update.q = (if n.load = nandgate.HI then n.d else n.q) := by
  have hr := Register4Net_settled_r n hs
  obtain ⟨⟨d0, d1, d2, d3⟩, load, clear, r, ⟨q0, q1, q2, q3⟩⟩ := n
  simp only at hclear hr
  subst hclear hr
  cases load <;> cases d0 <;> cases d1 <;> cases d2 <;> cases d3 <;>
    cases q0 <;> cases q1 <;> cases q2 <;> cases q3 <;> exact ⟨rfl, rfl⟩

/-- Witness of C7: a settled register holding 9 with `load` high takes 6. -/
theorem C7_Register4_load_hold_witness :
    (cpu3bit.Register4Net.mk (false, true, true, false) true false
      (false, true, true, false) (true, false, false, true)).Tick.q =
      (false, true, true, false) :=
  (C7_Register4_load_hold
    (cpu3bit.Register4Net.mk (false, true, true, false) true false
      (false, true, true, false) (true, false, false, true)) (by decide) rfl).1

/-- C8: Register4 clear. Whatever the register holds, whatever the data and
load lines and the lines that feed the cells carry, a `Tick` with `clear` high
leaves 0000 on the output; a further `Update` changes nothing of it. -/
theorem C8_Register4_clear (n : cpu3bit.Register4Net) (hclear : n.clear = nandgate.HI) :
    n.Tick.q = (nandgate.LO, nandgate.LO, nandgate.LO, nandgate.LO) ∧
    n.Tick.Update.q = (nandgate.LO, nandgate.LO, nandgate.LO, nandgate.LO) := by
  obtain ⟨d, load, clear, r, q⟩ := n
  simp only at hclear
  subst hclear
  exact ⟨rfl, rfl⟩

/-- Witness of C8: a register holding 15 with `load` high, data 15 and `clear`
high. -/
theorem C8_Register4_clear_witness :
    (cpu3bit.Register4Net.mk (true, true, true, true) true true
      (true, true, true, true) (true, true, true, true)).Tick.q =
      (false, false, false, false) :=
  (C8_Register4_clear
    (cpu3bit.Register4Net.mk (true, true, true, true) true true
      (true, true, true, true) (true, true, true, true)) rfl).1

/-- C9: ROM is a multiplexed read. For every memory of 8 words of 7 bits and
every 3-bit address `a` (bit 0 least significant), the ROM returns, and its
seven settled output lines are word number `a` of the memory bit for bit. -/
theorem C9_ROM_read (memory : List (List nandgate.Level)) (a : cpu3bit.Lines3)
    (h8 : memory.length = 8) (h7 : ∀ w ∈ memory, w.length = 7) :
    ∃ out, cpu3bit.ROM memory a = some out ∧
      memory[cpu3bit.val3 a]? = some (cpu3bit.Lines7.toList out) := by
  obtain ⟨w0, w1, w2, w3, w4, w5, w6, w7, rfl⟩ := memory_of_shape memory h8 h7
  refine ⟨cpu3bit.pick a w0 w1 w2 w3 w4 w5 w6 w7, ROM_words _ _ _ _ _ _ _ _ _, ?_⟩
  obtain ⟨a0, a1, a2⟩ := a
  cases a0 <;> cases a1 <;> cases a2 <;> rfl

/-- Witness of C9: the levels of the sample image read at address 5. -/
theorem C9_ROM_read_witness :
    (cpu3bit.memoryimage.map (fun m => m.map cpu3bit.levelOf)).length = 8 ∧
    (∀ w ∈ cpu3bit.memoryimage.map (fun m => m.map cpu3bit.levelOf), w.length = 7) ∧
    ∃ out, cpu3bit.ROM (cpu3bit.memoryimage.map (fun m => m.map cpu3bit.levelOf))
        (true, false, true) = some out ∧
      (cpu3bit.memoryimage.map (fun m => m.map cpu3bit.levelOf))[cpu3bit.val3
        (true, false, true)]? = some (cpu3bit.Lines7.toList out) :=
  ⟨by decide, by decide,
    C9_ROM_read (cpu3bit.memoryimage.map (fun m => m.map cpu3bit.levelOf)) (true, false, true)
      (by decide) (by decide)⟩

open cpu3bit in
/-- C10: CPU ADD instructions. From a settled state of the circuit built by
`MakeComputer` from an image of 8 words of 7 bits: when the word at the
program counter has opcode bits (6,5,4) = 010 and immediate `imm`, one `Tick`
returns a state with `A = (A + imm) mod 16`, carry `(A + imm) / 16`, `B`
unchanged and `PC = (PC + 1) mod 8`; when the opcode is 100, the same with the
parts of `A` and `B` exchanged. -/
theorem C10_CPU_add (image : List (List Int)) (c : CPUInfo) (imm : Lines4)
    (hi : Image8x7 image) (hb : BuiltFrom image c) (hs : c.Settled) :
    (image[val3 c.PCq]? = some [State imm.1, State imm.2.1, State imm.2.2.1, State imm.2.2.2,
        0, 1, 0] →
      ∃ c1, c.Tick = some c1 ∧ val4 c1.RAq = (val4 c.RAq + val4 imm) % 16 ∧
        bit c1.Cq = (val4 c.RAq + val4 imm) / 16 ∧ c1.RBq = c.RBq ∧
        val3 c1.PCq = (val3 c.PCq + 1) % 8) ∧
    (image[val3 c.PCq]? = some [State imm.1, State imm.2.1, State imm.2.2.1, State imm.2.2.2,
        0, 0, 1] →
      ∃ c1, c.Tick = some c1 ∧ val4 c1.RBq = (val4 c.RBq + val4 imm) % 16 ∧
        bit c1.Cq = (val4 c.RBq + val4 imm) / 16 ∧ c1.RAq = c.RAq ∧
        val3 c1.PCq = (val3 c.PCq + 1) % 8) := by
  obtain ⟨o, ho, c1, ht, hA, hB, hPC, hC, -, -, -⟩ := Tick_of_settled image c hi hb hs
  constructor
  · intro hw
    have hoe := states_word o imm nandgate.LO nandgate.HI nandgate.LO (ho.symm.trans hw)
    rw [hoe, wiring_add_A] at hA hB hPC hC
    refine ⟨c1, ht, ?_, ?_, hB, ?_⟩
    · rw [hA, (ALU_add_val imm c.RAq).1, Nat.add_comm]
    · rw [hC, (ALU_add_val imm c.RAq).2, Nat.add_comm]
    · rw [hPC]; exact Counter3_LO_val _ _
  · intro hw
    have hoe := states_word o imm nandgate.LO nandgate.LO nandgate.HI (ho.symm.trans hw)
    rw [hoe, wiring_add_B] at hA hB hPC hC
    refine ⟨c1, ht, ?_, ?_, hA, ?_⟩
    · rw [hB, (ALU_add_val imm c.RBq).1, Nat.add_comm]
    · rw [hC, (ALU_add_val imm c.RBq).2, Nat.add_comm]
    · rw [hPC]; exact Counter3_LO_val _ _

/-- Witness of C10: the sample circuit at word 3 (`add a,1`, A = 13) and at
word 2 (`add b,3`, B = 0). -/
theorem C10_CPU_add_witness :
    (cpu3bit.Image8x7 cpu3bit.memoryimage ∧ cpu3bit.sampleAtAddA.Settled ∧
      ∃ c1, cpu3bit.sampleAtAddA.Tick = some c1 ∧
        cpu3bit.val4 c1.RAq = (cpu3bit.val4 cpu3bit.sampleAtAddA.RAq +
          cpu3bit.val4 (true, false, false, false)) % 16 ∧
        cpu3bit.bit c1.Cq = (cpu3bit.val4 cpu3bit.sampleAtAddA.RAq +
          cpu3bit.val4 (true, false, false, false)) / 16 ∧
        c1.RBq = cpu3bit.sampleAtAddA.RBq ∧
        cpu3bit.val3 c1.PCq = (cpu3bit.val3 cpu3bit.sampleAtAddA.PCq + 1) % 8) ∧
    (cpu3bit.sampleAtAddB.Settled ∧
      ∃ c1, cpu3bit.sampleAtAddB.Tick = some c1 ∧
        cpu3bit.val4 c1.RBq = (cpu3bit.val4 cpu3bit.sampleAtAddB.RBq +
          cpu3bit.val4 (true, true, false, false)) % 16 ∧
        cpu3bit.bit c1.Cq = (cpu3bit.val4 cpu3bit.sampleAtAddB.RBq +
          cpu3bit.val4 (true, true, false, false)) / 16 ∧
        c1.RAq = cpu3bit.sampleAtAddB.RAq ∧
        cpu3bit.val3 c1.PCq = (cpu3bit.val3 cpu3bit.sampleAtAddB.PCq + 1) % 8) :=
  ⟨⟨by decide, by decide,
    (C10_CPU_add cpu3bit.memoryimage cpu3bit.sampleAtAddA (true, false, false, false)
      (by decide) ⟨_, rfl, rfl, rfl⟩ (by decide)).1 rfl⟩,
   ⟨by decide,
    (C10_CPU_add cpu3bit.memoryimage cpu3bit.sampleAtAddB (true, true, false, false)
      (by decide) ⟨_, rfl, rfl, rfl⟩ (by decide)).2 rfl⟩⟩

open cpu3bit in
/-- C11: CPU MOV instructions. From a settled state of the circuit built by
`MakeComputer` from an image of 8 words of 7 bits: when the word at the
program counter has opcode bits (6,5,4) = 011 and immediate `imm`, one `Tick`
returns a state with `A = imm`, `B` unchanged, `PC = (PC + 1) mod 8` and the
carry flag low, whatever `A` was; when the opcode is 101, the same with the
parts of `A` and `B` exchanged. -/
theorem C11_CPU_mov (image : List (List Int)) (c : CPUInfo) (imm : Lines4)
    (hi : Image8x7 image) (hb : BuiltFrom image c) (hs : c.Settled) :
    (image[val3 c.PCq]? = some [State imm.1, State imm.2.1, State imm.2.2.1, State imm.2.2.2,
        1, 1, 0] →
      ∃ c1, c.Tick = some c1 ∧ c1.RAq = imm ∧ c1.RBq = c.RBq ∧
        val3 c1.PCq = (val3 c.PCq + 1) % 8 ∧ c1.Cq = nandgate.LO) ∧
    (image[val3 c.PCq]? = some [State imm.1, State imm.2.1, State imm.2.2.1, State imm.2.2.2,
        1, 0, 1] →
      ∃ c1, c.Tick = some c1 ∧ c1.RBq = imm ∧ c1.RAq = c.RAq ∧
        val3 c1.PCq = (val3 c.PCq + 1) % 8 ∧ c1.Cq = nandgate.LO) := by
  obtain ⟨o, ho, c1, ht, hA, hB, hPC, hC, -, -, -⟩ := Tick_of_settled image c hi hb hs
  constructor
  · intro hw
    have hoe := states_word o imm nandgate.HI nandgate.HI nandgate.LO (ho.symm.trans hw)
    rw [hoe, wiring_mov_A] at hA hB hPC hC
    exact ⟨c1, ht, hA, hB, by rw [hPC]; exact Counter3_LO_val _ _, hC⟩
  · intro hw
    have hoe := states_word o imm nandgate.HI nandgate.LO nandgate.HI (ho.symm.trans hw)
    rw [hoe, wiring_mov_B] at hA hB hPC hC
    exact ⟨c1, ht, hB, hA, by rw [hPC]; exact Counter3_LO_val _ _, hC⟩

/-- Witness of C11: the sample circuit at word 1 (`mov a,13`) and at word 0
(`mov b,0`). -/
theorem C11_CPU_mov_witness :
    (cpu3bit.Image8x7 cpu3bit.memoryimage ∧ cpu3bit.sampleAtMovA.Settled ∧
      ∃ c1, cpu3bit.sampleAtMovA.Tick = some c1 ∧ c1.RAq = (true, false, true, true) ∧
        c1.RBq = cpu3bit.sampleAtMovA.RBq ∧
        cpu3bit.val3 c1.PCq = (cpu3bit.val3 cpu3bit.sampleAtMovA.PCq + 1) % 8 ∧
        c1.Cq = nandgate.LO) ∧
    (cpu3bit.sampleAtMovB.Settled ∧
      ∃ c1, cpu3bit.sampleAtMovB.Tick = some c1 ∧ c1.RBq = (false, false, false, false) ∧
        c1.RAq = cpu3bit.sampleAtMovB.RAq ∧
        cpu3bit.val3 c1.PCq = (cpu3bit.val3 cpu3bit.sampleAtMovB.PCq + 1) % 8 ∧
        c1.Cq = nandgate.LO) :=
  ⟨⟨by decide, by decide,
    (C11_CPU_mov cpu3bit.memoryimage cpu3bit.sampleAtMovA (true, false, true, true)
      (by decide) ⟨_, rfl, rfl, rfl⟩ (by decide)).1 rfl⟩,
   ⟨by decide,
    (C11_CPU_mov cpu3bit.memoryimage cpu3bit.sampleAtMovB (false, false, false, false)
      (by decide) ⟨_, rfl, rfl, rfl⟩ (by decide)).2 rfl⟩⟩

open cpu3bit in
/-- C12: CPU JNC instruction. From a settled state of the circuit built by
`MakeComputer` from an image of 8 words of 7 bits whose word at the program
counter has opcode bits (6,5,4) = 110 and immediate `imm`, one `Tick` returns
a state with `PC = imm mod 8` if the carry flag was low and
`PC = (PC + 1) mod 8` if it was high; `A` and `B` are unchanged either way. -/
theorem C12_CPU_jnc (image : List (List Int)) (c : CPUInfo) (imm : Lines4)
    (hi : Image8x7 image) (hb : BuiltFrom image c) (hs : c.Settled)
    (hw : image[val3 c.PCq]? = some [State imm.1, State imm.2.1, State imm.2.2.1,
      State imm.2.2.2, 0, 1, 1]) :
    ∃ c1, c.Tick = some c1 ∧
      (c.Cq = nandgate.LO → val3 c1.PCq = val4 imm % 8) ∧
      (c.Cq = nandgate.HI → val3 c1.PCq = (val3 c.PCq + 1) % 8) ∧
      c1.RAq = c.RAq ∧ c1.RBq = c.RBq := by
  obtain ⟨o, ho, c1, ht, hA, hB, hPC, -, -, -, -⟩ := Tick_of_settled image c hi hb hs
  have hoe := states_word o imm nandgate.LO nandgate.HI nandgate.HI (ho.symm.trans hw)
  rw [hoe, wiring_jnc] at hA hB hPC
  refine ⟨c1, ht, ?_, ?_, hA, hB⟩
  · intro hc
    rw [hPC, hc]
    show val3 (Counter3 _ nandgate.HI _) = _
    rw [Counter3_HI, val3_low]
  · intro hc
    rw [hPC, hc]
    exact Counter3_LO_val _ _

/-- Witness of C12: the sample circuit at word 4 (`jnc 2`), once with the carry
flag low (the jump is taken) and once with it high (the counter goes on). -/
theorem C12_CPU_jnc_witness :
    (cpu3bit.Image8x7 cpu3bit.memoryimage ∧ cpu3bit.sampleAtJncLow.Settled ∧
      ∃ c1, cpu3bit.sampleAtJncLow.Tick = some c1 ∧
        (cpu3bit.sampleAtJncLow.Cq = nandgate.LO →
          cpu3bit.val3 c1.PCq = cpu3bit.val4 (false, true, false, false) % 8) ∧
        (cpu3bit.sampleAtJncLow.Cq = nandgate.HI →
          cpu3bit.val3 c1.PCq = (cpu3bit.val3 cpu3bit.sampleAtJncLow.PCq + 1) % 8) ∧
        c1.RAq = cpu3bit.sampleAtJncLow.RAq ∧ c1.RBq = cpu3bit.sampleAtJncLow.RBq) ∧
    (cpu3bit.sampleAtJncHigh.Settled ∧
      ∃ c1, cpu3bit.sampleAtJncHigh.Tick = some c1 ∧
        (cpu3bit.sampleAtJncHigh.Cq = nandgate.LO →
          cpu3bit.val3 c1.PCq = cpu3bit.val4 (false, true, false, false) % 8) ∧
        (cpu3bit.sampleAtJncHigh.Cq = nandgate.HI →
          cpu3bit.val3 c1.PCq = (cpu3bit.val3 cpu3bit.sampleAtJncHigh.PCq + 1) % 8) ∧
        c1.RAq = cpu3bit.sampleAtJncHigh.RAq ∧ c1.RBq = cpu3bit.sampleAtJncHigh.RBq) :=
  ⟨⟨by decide, by decide,
    C12_CPU_jnc cpu3bit.memoryimage cpu3bit.sampleAtJncLow (false, true, false, false)
      (by decide) ⟨_, rfl, rfl, rfl⟩ (by decide) rfl⟩,
   ⟨by decide,
    C12_CPU_jnc cpu3bit.memoryimage cpu3bit.sampleAtJncHigh (false, true, false, false)
      (by decide) ⟨_, rfl, rfl, rfl⟩ (by decide) rfl⟩⟩

open cpu3bit in
/-- C13: CPU JMP instruction. From a settled state of the circuit built by
`MakeComputer` from an image of 8 words of 7 bits whose word at the program
counter has opcode bits (6,5,4) = 111 and immediate `imm`, one `Tick` returns
a state with `PC = imm mod 8` whatever the carry flag, `A` and `B` unchanged;
and when `imm mod 8` is the program counter itself, the program counter and
both registers are the same after any number of ticks. -/
theorem C13_CPU_jmp (image : List (List Int)) (c : CPUInfo) (imm : Lines4)
    (hi : Image8x7 image) (hb : BuiltFrom image c) (hs : c.Settled)
    (hw : image[val3 c.PCq]? = some [State imm.1, State imm.2.1, State imm.2.2.1,
      State imm.2.2.2, 1, 1, 1]) :
    (∃ c1, c.Tick = some c1 ∧ val3 c1.PCq = val4 imm % 8 ∧
      c1.RAq = c.RAq ∧ c1.RBq = c.RBq) ∧
    (val4 imm % 8 = val3 c.PCq →
      ∀ n, ∃ cn, TickTocks n c = some cn ∧ cn.PCq = c.PCq ∧ cn.RAq = c.RAq ∧
        cn.RBq = c.RBq) := by
  constructor
  · obtain ⟨o, ho, c1, ht, hA, hB, hPC, -, -, -, -⟩ := Tick_of_settled image c hi hb hs
    have hoe := states_word o imm nandgate.HI nandgate.HI nandgate.HI (ho.symm.trans hw)
    rw [hoe, wiring_jmp] at hA hB hPC
    exact ⟨c1, ht, by rw [hPC]; exact val3_low imm, hA, hB⟩
  · intro hself n
    exact jmp_self_stays image imm hi n c hb hs hw hself

/-- Witness of C13: the sample circuit at word 5 (`jmp 5`), one tick and five
ticks later. -/
theorem C13_CPU_jmp_witness :
    cpu3bit.Image8x7 cpu3bit.memoryimage ∧ cpu3bit.sampleAtJmp.Settled ∧
    (∃ c1, cpu3bit.sampleAtJmp.Tick = some c1 ∧
      cpu3bit.val3 c1.PCq = cpu3bit.val4 (true, false, true, false) % 8 ∧
      c1.RAq = cpu3bit.sampleAtJmp.RAq ∧ c1.RBq = cpu3bit.sampleAtJmp.RBq) ∧
    (∃ cn, cpu3bit.TickTocks 5 cpu3bit.sampleAtJmp = some cn ∧
      cn.PCq = cpu3bit.sampleAtJmp.PCq ∧ cn.RAq = cpu3bit.sampleAtJmp.RAq ∧
      cn.RBq = cpu3bit.sampleAtJmp.RBq) :=
  ⟨by decide, by decide,
    (C13_CPU_jmp cpu3bit.memoryimage cpu3bit.sampleAtJmp (true, false, true, false)
      (by decide) ⟨_, rfl, rfl, rfl⟩ (by decide) rfl).1,
    (C13_CPU_jmp cpu3bit.memoryimage cpu3bit.sampleAtJmp (true, false, true, false)
      (by decide) ⟨_, rfl, rfl, rfl⟩ (by decide) rfl).2 (by decide) 5⟩

open cpu3bit in
/-- C14: CPU no-op and hold. From a settled state of the circuit built by
`MakeComputer` from an image of 8 words of 7 bits: when the word at the
program counter has opcode bits (6,5,4) = 000 or 001, whatever its immediate
and the carry flag, one `Tick` leaves `A` and `B` unchanged and gives
`PC = (PC + 1) mod 8`; and for any word `o` at the program counter, a register
whose load line the decoder leaves low holds and a counter whose load line it
leaves low counts. -/
theorem C14_CPU_nop_hold (image : List (List Int)) (c : CPUInfo)
    (hi : Image8x7 image) (hb : BuiltFrom image c) (hs : c.Settled) :
    (∀ (imm : Lines4) (i0 : nandgate.Level),
      image[val3 c.PCq]? = some [State imm.1, State imm.2.1, State imm.2.2.1, State imm.2.2.2,
        State i0, 0, 0] →
      ∃ c1, c.Tick = some c1 ∧ c1.RAq = c.RAq ∧ c1.RBq = c.RBq ∧
        val3 c1.PCq = (val3 c.PCq + 1) % 8) ∧
    (∃ o : Lines7, image[val3 c.PCq]? = some (Lines7.states o) ∧
      ∃ c1, c.Tick = some c1 ∧
        ((Decoder o.2.2.2.2.1 o.2.2.2.2.2.1 o.2.2.2.2.2.2 c.Cq).lda = nandgate.LO →
          c1.RAq = c.RAq) ∧
        ((Decoder o.2.2.2.2.1 o.2.2.2.2.2.1 o.2.2.2.2.2.2 c.Cq).ldb = nandgate.LO →
          c1.RBq = c.RBq) ∧
        ((Decoder o.2.2.2.2.1 o.2.2.2.2.2.1 o.2.2.2.2.2.2 c.Cq).ldpc = nandgate.LO →
          val3 c1.PCq = (val3 c.PCq + 1) % 8)) := by
  obtain ⟨o, ho, c1, ht, hA, hB, hPC, -, -, -, -⟩ := Tick_of_settled image c hi hb hs
  constructor
  · intro imm i0 hw
    have hoe := states_word o imm i0 nandgate.LO nandgate.LO (ho.symm.trans hw)
    rw [hoe, wiring_nop] at hA hB hPC
    exact ⟨c1, ht, hA, hB, by rw [hPC]; exact Counter3_LO_val _ _⟩
  · obtain ⟨h1, h2, h3⟩ := wiring_not_loaded c o
    exact ⟨o, ho, c1, ht, fun h => hA.trans (h1 h), fun h => hB.trans (h2 h),
      fun h => by rw [hPC]; exact h3 h⟩

/-- Witness of C14: the sample circuit put at word 6 (a no-op) with A = 5,
B = 6 and the carry flag high. -/
theorem C14_CPU_nop_hold_witness :
    cpu3bit.Image8x7 cpu3bit.memoryimage ∧ cpu3bit.sampleAtNop.Settled ∧
    ∃ c1, cpu3bit.sampleAtNop.Tick = some c1 ∧ c1.RAq = cpu3bit.sampleAtNop.RAq ∧
      c1.RBq = cpu3bit.sampleAtNop.RBq ∧
      cpu3bit.val3 c1.PCq = (cpu3bit.val3 cpu3bit.sampleAtNop.PCq + 1) % 8 :=
  ⟨by decide, by decide,
    (C14_CPU_nop_hold cpu3bit.memoryimage cpu3bit.sampleAtNop (by decide) ⟨_, rfl, rfl, rfl⟩
      (by decide)).1 (false, false, false, false) false rfl⟩

open cpu3bit in
/-- C15: the sample program end to end. For the built-in sample image,
starting from `Initialize` and `MakeComputer`, after every number of
`TickTock` calls from 12 on register B reads 1001 (9) and the program counter
reads 5, the address of the self-jump; on the way the display shows the hand
trace: B = 3, 6, 9 at the end of three rounds of the loop, A counting 13, 14,
15 and wrapping to 0 with the carry flag high, which ends the loop. -/
theorem C15_sample_program :
    (∃ N, ∀ k, ∃ c, run memoryimage (N + k) = some c ∧
      c.RegisterB = [1, 0, 0, 1] ∧ val4 c.RBq = 9 ∧
      c.ProgramCounter = [1, 0, 1] ∧ val3 c.PCq = 5) ∧
    (List.range 13).map (trace memoryimage) =
      [some (0, 0, 0, 0), some (0, 0, 0, 0), some (0, 0, 1, 0), some (13, 0, 2, 0),
       some (13, 3, 3, 0), some (14, 3, 4, 0), some (14, 3, 2, 0), some (14, 6, 3, 0),
       some (15, 6, 4, 0), some (15, 6, 2, 0), some (15, 9, 3, 0), some (0, 9, 4, 1),
       some (0, 9, 5, 0)] := by
  refine ⟨⟨12, fun k => ⟨sampleAtJmp, ?_, by decide, by decide, by decide, by decide⟩⟩,
    trace_sample⟩
  have h12 : (MakeComputer memoryimage).bind (TickTocks 12) = some sampleAtJmp := run_sample_12
  unfold run
  cases hm : MakeComputer memoryimage with
  | none => rw [hm] at h12; exact absurd h12 (by simp)
  | some c0 =>
    rw [hm] at h12
    show TickTocks (12 + k) c0 = some sampleAtJmp
    rw [TickTocks_add]
    have h12b : TickTocks 12 c0 = some sampleAtJmp := h12
    rw [h12b]
    exact TickTocks_fixed sampleAtJmp sampleAtJmp_fixed k

/-- Counterexample to C16: `MakeComputer` builds a circuit from an image with a
word of 8 bits and from an image with the element 2, which `Memory` then gives
back unchanged; and the text loader turns a text with a stray letter and a
line of 8 bits into that first image without a failure. -/
theorem C16_counterexample :
    (∃ w ∈ cpu3bit.imageWide, w.length ≠ 7) ∧
    (cpu3bit.MakeComputer cpu3bit.imageWide).isSome = true ∧
    (∃ w ∈ cpu3bit.imageTwo, ∃ x ∈ w, x ≠ 0 ∧ x ≠ 1) ∧
    (cpu3bit.MakeComputer cpu3bit.imageTwo).map cpu3bit.CPUInfo.Memory =
      some cpu3bit.imageTwo ∧
    cpu3bit.loadMemoryImageText cpu3bit.textWide = cpu3bit.imageWide := by
  refine ⟨by decide, by decide, by decide, by decide, by decide⟩

open cpu3bit in
/-- C16 as amended: `MakeComputer` checks nothing and reports nothing.  It
builds a circuit exactly from the images with at least 8 words whose first 8
words have at least 7 elements each, and the memory lines of the circuit hold
the image as given, elements other than 0 and 1, bits past the seventh and
words past the eighth included; from any other image no circuit comes out,
because wiring the ROM reads past the end of a slice. -/
theorem C16_no_validation (image : List (List Int)) :
    ((MakeComputer image).isSome = true ↔
      (8 ≤ image.length ∧ ∀ w ∈ image.take 8, 7 ≤ w.length)) ∧
    (MakeComputer image).map CPUInfo.Memory = (MakeComputer image).map (fun _ => image) := by
  refine ⟨MakeComputer_isSome_iff image, ?_⟩
  cases h : MakeComputer image with
  | none => rfl
  | some c0 =>
    show some c0.Memory = some image
    rw [Memory_eq, (MakeComputer_some image c0 h).1]

/-- Counterexample to C17: the first seven words of the sample image, each of
7 bits, give no circuit. -/
theorem C17_counterexample :
    cpu3bit.imageShort.length = 7 ∧
    (∀ w ∈ cpu3bit.imageShort, w.length = 7 ∧ ∀ x ∈ w, x = 0 ∨ x = 1) ∧
    cpu3bit.MakeComputer cpu3bit.imageShort = none := by
  refine ⟨by decide, by decide, by decide⟩

open cpu3bit in
/-- C17 as amended: short images are not padded.  For every image of fewer
than 8 words `MakeComputer` builds no circuit, and the ROM over the memory
lines of such an image returns for no address: wiring it reads `memory[7]`
past the end of the slice. -/
theorem C17_short_image (image : List (List Int)) (h : image.length < 8) :
    MakeComputer image = none ∧
    ∀ inp : Lines3, ROM (image.map (fun m => m.map levelOf)) inp = none :=
  ⟨MakeComputer_short image h, fun inp => ROM_short _ (by simpa using h) inp⟩

/-- Witness of C17 as amended: the empty image. -/
theorem C17_short_image_witness :
    ([] : List (List Int)).length < 8 ∧ cpu3bit.MakeComputer [] = none :=
  ⟨by decide, (C17_short_image [] (by decide)).1⟩

open cpu3bit in
/-- C18: the ROM contents are fixed. For every image of 8 words of 7 bits and
every number `n` of ticks on the circuit `MakeComputer` builds from it, the
run returns a circuit and `Memory` gives back exactly the image. -/
theorem C18_memory_fixed (image : List (List Int)) (hi : Image8x7 image) (n : Nat) :
    ∃ c, run image n = some c ∧ c.Memory = image := by
  obtain ⟨c0, hmk, hm0⟩ := MakeComputer_of_image image hi
  obtain ⟨cn, hn, hmn⟩ := TickTocks_memory image hi n c0 hm0
  refine ⟨cn, ?_, (Memory_eq cn).trans hmn⟩
  unfold run
  rw [hmk]
  exact hn

/-- Witness of C18: the sample image after 20 ticks. -/
theorem C18_memory_fixed_witness :
    cpu3bit.Image8x7 cpu3bit.memoryimage ∧
    ∃ c, cpu3bit.run cpu3bit.memoryimage 20 = some c ∧ c.Memory = cpu3bit.memoryimage :=
  ⟨by decide, C18_memory_fixed cpu3bit.memoryimage (by decide) 20⟩

open cpu3bit in
/-- C19: `Tick` samples stale data inputs. When `Counter3` is driven as in its
test (levels put on `d`, `load` and `clear`, then `Tick`, then `Update`), the
output after a step is 000 if the `clear` of that step is high, and otherwise
what the counter logic computes from the output, the `d` and the `load` of the
step before; the `d` and `load` of the step itself play no part.  So the first
step after `Init` leaves 000, and a `load` put high at a step with `clear` low,
after a step with `load` low, still counts up at that step and shows the data
only one step later. -/
theorem C19_stale_inputs (n : Counter3Net) (d1 d2 d3 : Lines3)
    (l1 l2 l3 c1 c2 : nandgate.Level) :
    (TestCounter3.step (TestCounter3.step n d1 l1 c1) d2 l2 c2).q =
      (if c2 = nandgate.HI then (nandgate.LO, nandgate.LO, nandgate.LO)
       else Counter3 d1 l1 (TestCounter3.step n d1 l1 c1).q) ∧
    (TestCounter3.step TestCounter3.init d1 l1 c1).q = (nandgate.LO, nandgate.LO, nandgate.LO) ∧
    val3 (TestCounter3.step (TestCounter3.step n d1 nandgate.LO c1) d2 nandgate.HI
      nandgate.LO).q = (val3 (TestCounter3.step n d1 nandgate.LO c1).q + 1) % 8 ∧
    (TestCounter3.step (TestCounter3.step (TestCounter3.step n d1 nandgate.LO c1) d2
      nandgate.HI nandgate.LO) d3 l3 nandgate.LO).q = d2 := by
  refine ⟨?_, ?_, ?_, ?_⟩
  · rw [step_q, step_r, DFFC3_eq]
  · exact step_q_init d1 l1 c1
  · rw [step_q_LO, step_r]
    exact Counter3_LO_val _ _
  · rw [step_q_LO, step_r]
    exact Counter3_HI _ _

open cpu3bit in
/-- C20: the decoder's load lines are mutually exclusive. For every `i0`,
`i1`, `i2` and `cin` no two of `lda`, `ldb` and `ldpc` are high together; so
from a settled state of the circuit built by `MakeComputer` from an image of 8
words of 7 bits, for the word `o` at the program counter at most one load line
is high, and after one `Tick` at least two of these hold: `A` is unchanged,
`B` is unchanged, the program counter has counted up. -/
theorem C20_load_exclusive (image : List (List Int)) (c : CPUInfo)
    (hi : Image8x7 image) (hb : BuiltFrom image c) (hs : c.Settled) :
    (∀ i0 i1 i2 cin : nandgate.Level,
      ¬ ((Decoder i0 i1 i2 cin).lda = nandgate.HI ∧ (Decoder i0 i1 i2 cin).ldb = nandgate.HI) ∧
      ¬ ((Decoder i0 i1 i2 cin).lda = nandgate.HI ∧ (Decoder i0 i1 i2 cin).ldpc = nandgate.HI) ∧
      ¬ ((Decoder i0 i1 i2 cin).ldb = nandgate.HI ∧
        (Decoder i0 i1 i2 cin).ldpc = nandgate.HI)) ∧
    (∃ c1, c.Tick = some c1 ∧
      ((c1.RAq = c.RAq ∧ c1.RBq = c.RBq) ∨
       (c1.RAq = c.RAq ∧ val3 c1.PCq = (val3 c.PCq + 1) % 8) ∨
       (c1.RBq = c.RBq ∧ val3 c1.PCq = (val3 c.PCq + 1) % 8))) := by
  refine ⟨Decoder_exclusive, ?_⟩
  obtain ⟨o, -, c1, ht, hA, hB, hPC, -, -, -, -⟩ := Tick_of_settled image c hi hb hs
  obtain ⟨h1, h2, h3⟩ := wiring_not_loaded c o
  obtain ⟨e1, e2, e3⟩ := Decoder_exclusive o.2.2.2.2.1 o.2.2.2.2.2.1 o.2.2.2.2.2.2 c.Cq
  refine ⟨c1, ht, ?_⟩
  rw [hA, hB, hPC]
  cases ha : (Decoder o.2.2.2.2.1 o.2.2.2.2.2.1 o.2.2.2.2.2.2 c.Cq).lda <;>
    cases hb2 : (Decoder o.2.2.2.2.1 o.2.2.2.2.2.1 o.2.2.2.2.2.2 c.Cq).ldb <;>
    cases hp : (Decoder o.2.2.2.2.1 o.2.2.2.2.2.1 o.2.2.2.2.2.2 c.Cq).ldpc
  · exact Or.inl ⟨h1 ha, h2 hb2⟩
  · exact Or.inl ⟨h1 ha, h2 hb2⟩
  · exact Or.inr (Or.inl ⟨h1 ha, h3 hp⟩)
  · exact absurd ⟨hb2, hp⟩ e3
  · exact Or.inr (Or.inr ⟨h2 hb2, h3 hp⟩)
  · exact absurd ⟨ha, hp⟩ e2
  · exact absurd ⟨ha, hb2⟩ e1
  · exact absurd ⟨ha, hb2⟩ e1

/-- Witness of C20: the sample circuit at word 3 (`add a,1`); only register A
is written, register B holds and the program counter counts. -/
theorem C20_load_exclusive_witness :
    cpu3bit.Image8x7 cpu3bit.memoryimage ∧ cpu3bit.sampleAtAddA.Settled ∧
    ∃ c1, cpu3bit.sampleAtAddA.Tick = some c1 ∧
      ((c1.RAq = cpu3bit.sampleAtAddA.RAq ∧ c1.RBq = cpu3bit.sampleAtAddA.RBq) ∨
       (c1.RAq = cpu3bit.sampleAtAddA.RAq ∧
        cpu3bit.val3 c1.PCq = (cpu3bit.val3 cpu3bit.sampleAtAddA.PCq + 1) % 8) ∨
       (c1.RBq = cpu3bit.sampleAtAddA.RBq ∧
        cpu3bit.val3 c1.PCq = (cpu3bit.val3 cpu3bit.sampleAtAddA.PCq + 1) % 8)) :=
  ⟨by decide, by decide,
    (C20_load_exclusive cpu3bit.memoryimage cpu3bit.sampleAtAddA (by decide)
      ⟨_, rfl, rfl, rfl⟩ (by decide)).2⟩

open cpu3bit in
/-- C21: the text image round trip. For every string `s` made only of the
characters `0` and `1`, converting it as the loader does (`convert`, then
reversed so that bit 0 comes first) and rendering the word as the display does
(`ToString`, then `ToRunes`, which reverses again) gives back the runes of `s`
exactly; and for all strings, `convert` returns only 0s and 1s and ignores
everything from a `#` on. -/
theorem C21_text_round_trip (s t t1 t2 : String) (hs : Binary s) :
    ToRunes (cpu3bit.ToString (convert s).reverse) = s.toList ∧
    (∀ x ∈ convert t, x = 0 ∨ x = 1) ∧
    convert (t1 ++ "#" ++ t2) = convert t1 := by
  refine ⟨?_, ?_, ?_⟩
  · have hc : convert s = s.toList.map (fun r => if r = '1' then 1 else 0) := by
      unfold convert
      rw [convertLoop_binary _ _ hs]
      rfl
    have hb : ∀ x ∈ (convert s).reverse, x = 0 ∨ x = 1 := by
      intro x hx
      exact convertLoop_mem s.toList [] (by simp) x (List.mem_reverse.mp hx)
    have hd := ToString_data (convert s).reverse "" hb
    rw [ToRunes_eq]
    show (cpu3bit.ToString (convert s).reverse).data.reverse = s.toList
    unfold cpu3bit.ToString
    rw [hd]
    have hempty : ("" : String).data = [] := rfl
    simp only [hempty, List.nil_append, List.map_reverse, List.reverse_reverse]
    rw [hc]
    exact map_digit_char _ hs
  · exact convertLoop_mem t.toList [] (by simp)
  · unfold convert
    have e : (t1 ++ "#" ++ t2).toList = t1.toList ++ '#' :: t2.toList := by
      show (t1 ++ "#" ++ t2).data = t1.data ++ '#' :: t2.data
      simp [String.data_append]
    rw [e, convertLoop_cut]

/-- Witness of C21: the line `1101000` of a text image. -/
theorem C21_text_round_trip_witness :
    cpu3bit.Binary "1101000" ∧
    cpu3bit.ToRunes (cpu3bit.ToString (cpu3bit.convert "1101000").reverse) =
      "1101000".toList :=
  ⟨by decide, (C21_text_round_trip "1101000" "" "" "" (by decide)).1⟩
